import Mathlib

/-!
Verification of the fare-dispatch engine in `src/dispatcher.py` (Aspirel/TaxiAI).

The dispatcher keeps a three-level board of fare requests (origin, then
destination, then call time), prices unpriced fares each tick, collects bids,
and allocates each priced fare to a single bidder using a fairness ledger
(`fareAmountConstraint`).  Python dictionaries are insertion-ordered, so the
board and the ledger are embedded as association lists in insertion order;
`dictGet`/`dictSet`/`dictDel` reproduce `d[k]`, `d[k] = v` and `del d[k]`.
The world (the dispatcher's `_parent`) is external: it resolves coordinates to
nodes and estimates travel times.  Calls that would raise an uncaught Python
exception (a `TypeError`, `KeyError`, `IndexError` or `ValueError`) are
modelled with `Option` results, or with an `ok := false` step result carrying
the state as mutated up to the point of the raise.
-/

set_option autoImplicit false

namespace TaxiAI

/-- A grid coordinate, as the `(x, y)` tuples used for origins, destinations
and taxi locations in `dispatcher.py`. -/
abbrev Coord := Int × Int

/-! ## Python dictionary semantics over association lists -/

/-- `d[k]` as a lookup: the value of the first entry whose key is `k`. -/
def dictGet {α β : Type} [DecidableEq α] (k : α) : List (α × β) → Option β
  | [] => none
  | p :: rest => if p.1 = k then some p.2 else dictGet k rest

/-- `k in d`. -/
def dictMem {α β : Type} [DecidableEq α] (k : α) (m : List (α × β)) : Bool :=
  (dictGet k m).isSome

/-- `d[k] = v`: replaces the value of an existing key in place, otherwise
appends the new entry at the end (Python dicts preserve insertion order). -/
def dictSet {α β : Type} [DecidableEq α] (k : α) (v : β) : List (α × β) → List (α × β)
  | [] => [(k, v)]
  | p :: rest => if p.1 = k then (k, v) :: rest else p :: dictSet k v rest

/-- `del d[k]`. -/
def dictDel {α β : Type} [DecidableEq α] (k : α) : List (α × β) → List (α × β)
  | [] => []
  | p :: rest => if p.1 = k then dictDel k rest else p :: dictDel k rest

/-- Python list indexing `l[i]`, including negative indices counting from the
end; `none` is an `IndexError`. -/
def pyIndex {α : Type} (l : List α) (i : Int) : Option α :=
  if 0 ≤ i then l.get? i.toNat
  else if (-i).toNat ≤ l.length then l.get? (l.length - (-i).toNat) else none

/-- `l.index(a)`: position of the first occurrence of `a`.  Only ever used
after a membership test, as in the source. -/
def listIndexOf {α : Type} [DecidableEq α] (a : α) : List α → Nat
  | [] => 0
  | x :: xs => if x = a then 0 else listIndexOf a xs + 1

/-! ## Data model -/

/-- The `FareEntry` data container of `dispatcher.py`: price `0` means
unpriced, `taxi = -1` means unallocated, `bidders` holds taxi indices in bid
order. -/
structure FareEntry where
  origin : Coord
  destination : Coord
  calltime : Int
  price : ℚ
  taxi : Int
  bidders : List Nat
deriving DecidableEq

/-- The slice of a taxi agent's record that the dispatcher reads: its current
location, its planned path `_path` (a sequence of coordinates whose last
element is its destination), its identity number and its revenue. -/
structure Taxi where
  number : Nat
  currentLocation : Coord
  path : List Coord
  revenue : ℚ
deriving DecidableEq

/-- The external world bound to the dispatcher (`self._parent`): an identity
used for the cross-world checks, plus `getNode` and `travelTime`. -/
structure World where
  wid : Nat
  getNode : Coord → Option Nat
  travelTime : Nat → Nat → ℚ

/-- The nested fare board: origin, then destination, then call time. -/
abbrev Board := List (Coord × List (Coord × List (Int × FareEntry)))

/-- The dispatcher's mutable state: bound world identity, revenue account,
known taxis, the fare board, and the fairness ledger `fareAmountConstraint`
mapping a taxi index to how many fares it has been awarded. -/
structure Dispatcher where
  parent : Nat
  revenue : ℚ
  taxis : List Taxi
  fareBoard : Board
  fareAmountConstraint : List (Nat × Nat)
deriving DecidableEq

/-- An outbound call into the environment made while handling an event. -/
inductive OutCall where
  | broadcast (origin destination : Coord) (price : ℚ)
  | allocate (origin : Coord) (taxi : Taxi)
  | cancel (origin : Coord) (taxi : Taxi)
deriving DecidableEq

/-- Result of one dispatcher operation: the state as left by the operation,
the outbound environment calls it made, and whether it completed without an
uncaught exception (`ok = false` means it raised after mutating `state`). -/
structure StepRes where
  state : Dispatcher
  out : List OutCall
  ok : Bool
deriving DecidableEq

/-! ## Board access -/

/-- `dm[dest][t]` as a partial read on one origin's bucket. -/
def bucketGet (dm : List (Coord × List (Int × FareEntry))) (dest : Coord) (t : Int) :
    Option FareEntry :=
  match dictGet dest dm with
  | none => none
  | some tm => dictGet t tm

/-- `b[o][dest][t]` as a partial read on a board value. -/
def boardGetB (b : Board) (o dest : Coord) (t : Int) : Option FareEntry :=
  match dictGet o b with
  | none => none
  | some dm => bucketGet dm dest t

/-- `self._fareBoard[o][dest][t]` as a partial read. -/
def boardGet (d : Dispatcher) (o dest : Coord) (t : Int) : Option FareEntry :=
  boardGetB d.fareBoard o dest t

/-- `self._fareBoard[o][dest][t] = e`, creating the intermediate buckets
exactly as `newFare` does. -/
def boardSet (o dest : Coord) (t : Int) (e : FareEntry) (b : Board) : Board :=
  let dm := (dictGet o b).getD []
  let tm := (dictGet dest dm).getD []
  dictSet o (dictSet dest (dictSet t e tm) dm) b

/-! ## Knowledge-base and event methods -/

/-- `Dispatcher.addTaxi`. -/
def addTaxi (tx : Taxi) (d : Dispatcher) : Dispatcher :=
  if tx ∈ d.taxis then d else { d with taxis := d.taxis ++ [tx] }

/-- `Dispatcher.newFare`: fares from a different world are ignored; otherwise
a fresh unpriced, unallocated entry overwrites the key. -/
def newFare (cw : Nat) (o dest : Coord) (t : Int) (d : Dispatcher) : Dispatcher :=
  if cw = d.parent then
    { d with fareBoard := boardSet o dest t ⟨o, dest, t, 0, -1, []⟩ d.fareBoard }
  else d

/-- `Dispatcher.cancelFare`.  When the key is present the source notifies
`self._taxis[entry.taxi]` before deleting the entry; with `taxi = -1` this is
Python's negative indexing (the last taxi), and an `IndexError` aborts the
call before the deletion.  Empty destination and origin buckets are pruned
afterwards. -/
def cancelFare (cw : Nat) (o dest : Coord) (ct : Int) (d : Dispatcher) : StepRes :=
  if cw = d.parent ∧ dictMem o d.fareBoard then
    let dm := (dictGet o d.fareBoard).getD []
    if dictMem dest dm then
      let tm := (dictGet dest dm).getD []
      let step1 : Option (List (Int × FareEntry) × List OutCall) :=
        match dictGet ct tm with
        | none => some (tm, [])
        | some e =>
          match pyIndex d.taxis e.taxi with
          | none => none
          | some tx => some (dictDel ct tm, [OutCall.cancel o tx])
      match step1 with
      | none => ⟨d, [], false⟩
      | some (tm1, outs) =>
        let dm1 := if tm1 = [] then dictDel dest dm else dictSet dest tm1 dm
        let board1 := if dm1 = [] then dictDel o d.fareBoard else dictSet o dm1 d.fareBoard
        ⟨{ d with fareBoard := board1 }, outs, true⟩
    else ⟨d, [], true⟩
  else ⟨d, [], true⟩

/-- Inner loop of `fareBid` over one destination's time bucket, in dictionary
(insertion) order: the first entry with `taxi == -1` gets the bidder index
appended, and the scan stops. -/
def bidTimeScan (idx : Nat) : List (Int × FareEntry) → Option (List (Int × FareEntry))
  | [] => none
  | (t, e) :: rest =>
    if e.taxi = -1 then some ((t, { e with bidders := e.bidders ++ [idx] }) :: rest)
    else
      match bidTimeScan idx rest with
      | none => none
      | some rest' => some ((t, e) :: rest')

/-- Outer loop of `fareBid` over the destinations of the bid origin, in
dictionary (insertion) order. -/
def bidDestScan (idx : Nat) : List (Coord × List (Int × FareEntry)) →
    Option (List (Coord × List (Int × FareEntry)))
  | [] => none
  | (dst, tm) :: rest =>
    match bidTimeScan idx tm with
    | some tm' => some ((dst, tm') :: rest)
    | none =>
      match bidDestScan idx rest with
      | none => none
      | some rest' => some ((dst, tm) :: rest')

/-- `Dispatcher.fareBid`: rogue taxis are ignored; otherwise the index of the
bidding taxi is appended to the first unallocated fare at the origin, and
nothing happens when there is none. -/
def fareBid (o : Coord) (tx : Taxi) (d : Dispatcher) : Dispatcher :=
  if tx ∈ d.taxis then
    match dictGet o d.fareBoard with
    | none => d
    | some dm =>
      match bidDestScan (listIndexOf tx d.taxis) dm with
      | none => d
      | some dm' => { d with fareBoard := dictSet o dm' d.fareBoard }
  else d

/-- `Dispatcher.recvPayment`. -/
def recvPayment (cw : Nat) (amount : ℚ) (d : Dispatcher) : Dispatcher :=
  if cw = d.parent then { d with revenue := d.revenue + amount } else d

/-- `Dispatcher.handover`: registers the taxi if new, re-registers the fare,
then writes its allocation and price directly.  It never touches the fairness
ledger. -/
def handover (cw : Nat) (o dest : Coord) (t : Int) (tx : Taxi) (price : ℚ)
    (d : Dispatcher) : StepRes :=
  if cw = d.parent then
    let d1 := if tx ∈ d.taxis then d else { d with taxis := d.taxis ++ [tx] }
    let d2 := newFare cw o dest t d1
    match boardGet d2 o dest t with
    | none => ⟨d2, [], false⟩
    | some e =>
      let e1 := { e with taxi := (listIndexOf tx d2.taxis : Int), price := price }
      ⟨{ d2 with fareBoard := boardSet o dest t e1 d2.fareBoard }, [], true⟩
  else ⟨d, [], true⟩

/-! ## Pricing (`_costFare`) -/

/-- Modelled from the spec: the environment's `travelTime` is declared on a
pair of nodes (`estimateTravelTime(nodeA, nodeB) -> real`); the source can
pass it `None` when `getNode` failed or the stuck-agent guard nulled the fare
node, which is outside that contract and is modelled as a failed call. -/
def tTime (w : World) : Option Nat → Option Nat → Option ℚ
  | some a, some b => some (w.travelTime a b)
  | _, _ => none

/-- The `while costSample < maximumCostAllowed - 1: costSample += 1` capping
loop of `_costFare`, run from an already-initialized sample. -/
def whileLoop (bound : ℚ) (x : ℚ) : ℚ :=
  if h : x < bound then whileLoop bound (x + 1) else x
termination_by (⌈bound - x⌉).toNat
decreasing_by
  have h1 : bound - (x + 1) = (bound - x) - 1 := by ring
  have h2 : (0 : ℤ) < ⌈bound - x⌉ := Int.ceil_pos.mpr (by linarith)
  rw [h1, Int.ceil_sub_one]
  omega

/-- The `for i in range(200)` sampling loop of `_costFare`, with `i` the next
index and `r` the remaining iterations.  The outer `none` is the `TypeError`
raised when the `while` loop compares an uninitialized (`None`) sample. -/
def costLoopAux (T maxCost : ℚ) : Nat → Nat → Option ℚ → Option (Option ℚ)
  | _, 0, cs => some cs
  | i, r + 1, cs =>
    if (i : ℚ) + T / (9 / 10) < maxCost - 1 then
      costLoopAux T maxCost (i + 1) r (some ((i : ℚ) + T / (9 / 10)))
    else
      match cs with
      | none => none
      | some c => some (some (whileLoop (maxCost - 1) c))

/-- The arithmetic core of `_costFare`, given the environment's travel-time
estimate `T`; `none` is an uncaught `TypeError` from the capping loop. -/
def costFareCalc (T : ℚ) : Option ℚ :=
  let maxCost := 10 * T
  match (if 0 < T then costLoopAux T maxCost 0 200 none else some none) with
  | none => none
  | some cs =>
    match cs with
    | some c => if 0 < c then some c else some 150
    | none => some 150

/-- `Dispatcher._costFare` on a fare entry: resolve both endpoints, ask the
world for the travel time, then run the sampling computation. -/
def costFare (w : World) (e : FareEntry) : Option ℚ :=
  match tTime w (w.getNode e.origin) (w.getNode e.destination) with
  | none => none
  | some T => costFareCalc T

/-! ## Allocation (`_allocateFare`) -/

/-- The travel-time estimate for bidder index `i` to the (possibly nulled)
fare node: `self._parent.travelTime(getNode(taxis[i].currentLocation), fareNode)`.
`none` covers the `IndexError` on a bad index and a failed world call. -/
def bidderTime (w : World) (taxis : List Taxi) (fn : Option Nat) (i : Nat) : Option ℚ :=
  match taxis.get? i with
  | none => none
  | some tx => tTime w (w.getNode tx.currentLocation) fn

/-- The inner `for t in self._taxis` of the stuck-agent guard: any taxi whose
non-empty path ends exactly at the origin with length `travelToOrigin`, or at
the destination with length `travelToOrigin + travelToDestination`, nulls the
fare node. -/
def guardCheck (o dest : Coord) (tto ttd : ℚ) (fn : Option Nat) : List Taxi → Option Nat
  | [] => fn
  | tx :: rest =>
    let fn1 := if tx.path ≠ [] ∧ (tx.path.length : ℚ) = tto ∧ tx.path.getLast? = some o
      then none else fn
    let fn2 := if tx.path ≠ [] ∧ (tx.path.length : ℚ) = tto + ttd ∧ tx.path.getLast? = some dest
      then none else fn1
    guardCheck o dest tto ttd fn2 rest

/-- The outer `for taxi in bidders` of the stuck-agent guard.  Each iteration
re-estimates travel times against the current fare node, so a nulled node
makes the next iteration's world call fail. -/
def guardLoop (w : World) (taxis : List Taxi) (o dest : Coord) :
    List Nat → Option Nat → Option (Option Nat)
  | [], fn => some fn
  | b :: rest, fn =>
    match bidderTime w taxis fn b, bidderTime w taxis (w.getNode dest) b with
    | some tto, some ttd => guardLoop w taxis o dest rest (guardCheck o dest tto ttd fn taxis)
    | _, _ => none

/-- The dictionary-building loop of the multi-bidder branch: bidders already
in the fairness ledger go to `constraintFares`, the rest to `initialFares`,
each mapped to its travel time to the fare node. -/
def buildDicts (w : World) (taxis : List Taxi) (ledger : List (Nat × Nat)) (fn : Option Nat) :
    List Nat → List (Nat × ℚ) → List (Nat × ℚ) → Option (List (Nat × ℚ) × List (Nat × ℚ))
  | [], ini, con => some (ini, con)
  | b :: rest, ini, con =>
    match bidderTime w taxis fn b with
    | none => none
    | some tt =>
      if dictMem b ledger then buildDicts w taxis ledger fn rest ini (dictSet b tt con)
      else buildDicts w taxis ledger fn rest (dictSet b tt ini) con

/-- The `travelTimes` dictionary rebuilt for the valid bidders. -/
def buildTimes (w : World) (taxis : List Taxi) (fn : Option Nat) :
    List Nat → List (Nat × ℚ) → Option (List (Nat × ℚ))
  | [], acc => some acc
  | b :: rest, acc =>
    match bidderTime w taxis fn b with
    | none => none
    | some tt => buildTimes w taxis fn rest (dictSet b tt acc)

/-- `min(d, key=d.get)`: the first key of minimal value; `none` is the
`ValueError` of `min` on an empty dictionary. -/
def dictArgmin : List (Nat × ℚ) → Option Nat
  | [] => none
  | p :: rest => some ((rest.foldl (fun b q => if q.2 < b.2 then q else b) p).1)

/-- `min(d.values())`; `none` is the `ValueError` on an empty dictionary. -/
def minVals : List (Nat × Nat) → Option Nat
  | [] => none
  | p :: rest => some (rest.foldl (fun b q => if q.2 < b then q.2 else b) p.2)

/-- `[i for i, j in ledger.items() if j == m]`. -/
def keysWithVal (m : Nat) : List (Nat × Nat) → List Nat
  | [] => []
  | p :: rest => if p.2 = m then p.1 :: keysWithVal m rest else keysWithVal m rest

/-- `[x for x in ks if x in allowed]`. -/
def filterMem (allowed : List Nat) : List Nat → List Nat
  | [] => []
  | k :: rest => if k ∈ allowed then k :: filterMem allowed rest else filterMem allowed rest

/-- The winner-selection logic of the multi-bidder branch of `_allocateFare`,
operating on the two travel-time dictionaries.  `none` is an uncaught
exception (`min` on an empty collection or a failed world call). -/
def chooseWinner (w : World) (taxis : List Taxi) (ledger : List (Nat × Nat)) (fn : Option Nat)
    (ini con : List (Nat × ℚ)) : Option Nat :=
  if ini ≠ [] then dictArgmin ini
  else
    match minVals ledger with
    | none => none
    | some m =>
      let lowest := keysWithVal m ledger
      let valid := filterMem lowest (con.map Prod.fst)
      if 1 < valid.length then
        match buildTimes w taxis fn valid [] with
        | none => none
        | some tt => dictArgmin tt
      else if 0 < valid.length then valid.head?
      else dictArgmin con

/-- `Dispatcher._allocateFare`.  Note that the stuck-agent guard only nulls
the local `fareNode` variable after the `if fareNode is not None` test has
already been passed, so the selection and the final allocation still run; a
nulled node only makes the multi-bidder branch's world calls fail. -/
def allocateFare (w : World) (o dest : Coord) (t : Int) (d : Dispatcher) : StepRes :=
  match boardGet d o dest t with
  | none => ⟨d, [], false⟩
  | some entry =>
    if 0 < d.taxis.length ∧ 0 < d.fareBoard.length then
      match w.getNode o with
      | none => ⟨d, [], true⟩
      | some fnode =>
        match guardLoop w d.taxis o dest entry.bidders (some fnode) with
        | none => ⟨d, [], false⟩
        | some fn1 =>
          match (if 1 < entry.bidders.length then
              match buildDicts w d.taxis d.fareAmountConstraint fn1 entry.bidders [] [] with
              | none => none
              | some (ini, con) => chooseWinner w d.taxis d.fareAmountConstraint fn1 ini con
            else entry.bidders.head? : Option Nat) with
          | none => ⟨d, [], false⟩
          | some k =>
            match d.taxis.get? k with
            | none =>
              ⟨{ d with fareBoard := boardSet o dest t { entry with taxi := (k : Int) } d.fareBoard },
               [], false⟩
            | some tx =>
              ⟨{ d with
                  fareBoard := boardSet o dest t { entry with taxi := (k : Int) } d.fareBoard,
                  fareAmountConstraint :=
                    match dictGet k d.fareAmountConstraint with
                    | some v => dictSet k (v + 1) d.fareAmountConstraint
                    | none => dictSet k 1 d.fareAmountConstraint },
               [OutCall.allocate o tx], true⟩
    else ⟨d, [], true⟩

/-! ## The tick driver (`clockTick`) -/

/-- Insertion into a sorted list, ascending. -/
def insertSorted (x : Int) : List Int → List Int
  | [] => [x]
  | y :: ys => if x ≤ y then x :: y :: ys else y :: insertSorted x ys

/-- `sorted(list(times))`. -/
def sortTimes : List Int → List Int
  | [] => []
  | x :: xs => insertSorted x (sortTimes xs)

/-- Processing of one fare inside `clockTick`: price-and-broadcast when
unpriced, otherwise attempt allocation when unallocated with bidders. -/
def processFare (w : World) (o dest : Coord) (t : Int) (d : Dispatcher) : StepRes :=
  match boardGet d o dest t with
  | none => ⟨d, [], true⟩
  | some e =>
    if e.price = 0 then
      match costFare w e with
      | none => ⟨d, [], false⟩
      | some p =>
        ⟨{ d with fareBoard := boardSet o dest t { e with price := p } d.fareBoard },
         [OutCall.broadcast o dest p], true⟩
    else if e.taxi < 0 ∧ e.bidders ≠ [] then allocateFare w o dest t d
    else ⟨d, [], true⟩

/-- The iteration order of `clockTick`: origins and destinations in dictionary
(insertion) order, call times sorted ascending.  Neither pricing nor
allocation changes the key structure, so the keys can be listed up front. -/
def tickTriples (b : Board) : List (Coord × Coord × Int) :=
  b.flatMap fun p => p.2.flatMap fun q =>
    (sortTimes (q.2.map Prod.fst)).map fun t => (p.1, q.1, t)

/-- One fold step of the tick: an exception aborts the remaining iterations,
keeping the state mutated so far. -/
def stepFold (w : World) (acc : StepRes) (k : Coord × Coord × Int) : StepRes :=
  if acc.ok then
    let r := processFare w k.1 k.2.1 k.2.2 acc.state
    ⟨r.state, acc.out ++ r.out, r.ok⟩
  else acc

/-- `Dispatcher.clockTick` (the revenue display only prints). -/
def clockTick (w : World) (cw : Nat) (d : Dispatcher) : StepRes :=
  if cw = d.parent then (tickTriples d.fareBoard).foldl (stepFold w) ⟨d, [], true⟩
  else ⟨d, [], true⟩

/-! ## Event sequences -/

/-- The runtime events of claim C5: bids, ticks and payments. -/
inductive Event where
  | bid (o : Coord) (tx : Taxi)
  | tick (cw : Nat)
  | pay (cw : Nat) (amount : ℚ)

/-- Apply one event, keeping whatever state the handler left behind (also
after an uncaught exception). -/
def applyEvent (w : World) (e : Event) (d : Dispatcher) : Dispatcher :=
  match e with
  | .bid o tx => fareBid o tx d
  | .tick cw => (clockTick w cw d).state
  | .pay cw a => recvPayment cw a d

/-- Apply a sequence of events in order. -/
def runEvents (w : World) (es : List Event) (d : Dispatcher) : Dispatcher :=
  es.foldl (fun s e => applyEvent w e s) d

/-! ## Statement-side helpers -/

/-- The first entry with `taxi == -1` in a time bucket, in insertion order. -/
def firstOpenTime : List (Int × FareEntry) → Option (Int × FareEntry)
  | [] => none
  | (t, e) :: rest => if e.taxi = -1 then some (t, e) else firstOpenTime rest

/-- The first unallocated fare of an origin bucket: destinations in insertion
order, call times in insertion order within each destination. -/
def firstOpenFare : List (Coord × List (Int × FareEntry)) → Option (Coord × Int × FareEntry)
  | [] => none
  | (dst, tm) :: rest =>
    match firstOpenTime tm with
    | some (t, e) => some (dst, t, e)
    | none => firstOpenFare rest

/-- Registry well-formedness: no empty destination or origin buckets (they
are pruned eagerly by `cancelFare`). -/
def noEmptyBuckets (b : Board) : Prop :=
  (∀ p ∈ b, p.2 ≠ []) ∧ ∀ p ∈ b, ∀ q ∈ p.2, q.2 ≠ []

/-- Registry well-formedness: keys are unique at every level, as they are in
Python dictionaries. -/
def boardKeysNodup (b : Board) : Prop :=
  (b.map Prod.fst).Nodup ∧
    ∀ p ∈ b, ((p.2.map Prod.fst).Nodup ∧ ∀ q ∈ p.2, (q.2.map Prod.fst).Nodup)

instance : DecidablePred noEmptyBuckets := fun b => by
  unfold noEmptyBuckets; infer_instance

instance : DecidablePred boardKeysNodup := fun b => by
  unfold boardKeysNodup; infer_instance

/-! ## Dictionary lemmas -/

section DictLemmas

variable {α β : Type} [DecidableEq α]

theorem dictGet_dictSet (k j : α) (v : β) (m : List (α × β)) :
    dictGet j (dictSet k v m) = if k = j then some v else dictGet j m := by
  induction m with
  | nil => simp [dictSet, dictGet]
  | cons p rest ih =>
    obtain ⟨a, b0⟩ := p
    by_cases hp : a = k
    · subst hp
      by_cases h : a = j <;> simp [dictSet, dictGet, h]
    · by_cases hj : a = j
      · subst hj
        have hkj : ¬ k = a := fun h => hp h.symm
        simp [dictSet, dictGet, hp, hkj]
      · simp [dictSet, dictGet, hp, hj, ih]

theorem dictGet_dictDel (k j : α) (m : List (α × β)) :
    dictGet j (dictDel k m) = if k = j then none else dictGet j m := by
  induction m with
  | nil => simp [dictDel, dictGet]
  | cons p rest ih =>
    obtain ⟨a, b0⟩ := p
    by_cases hp : a = k
    · subst hp
      by_cases h : a = j
      · subst h
        simp [dictDel, dictGet, ih]
      · simp [dictDel, dictGet, h, ih, fun hc : a = j => h hc]
    · by_cases hj : a = j
      · subst hj
        have hkj : ¬ k = a := fun h => hp h.symm
        simp [dictDel, dictGet, hp, hkj]
      · simp [dictDel, dictGet, hp, hj, ih]

theorem dictSet_get_self {k : α} {v : β} {m : List (α × β)}
    (h : dictGet k m = some v) : dictSet k v m = m := by
  induction m with
  | nil => simp [dictGet] at h
  | cons p rest ih =>
    obtain ⟨a, b0⟩ := p
    by_cases hp : a = k
    · subst hp
      have hv : b0 = v := by simpa [dictGet] using h
      simp [dictSet, ← hv]
    · simp only [dictGet, if_neg hp] at h
      simp [dictSet, hp, ih h]

theorem mem_dictSet {p : α × β} {k : α} {v : β} {m : List (α × β)}
    (h : p ∈ dictSet k v m) : p = (k, v) ∨ p ∈ m := by
  induction m with
  | nil =>
    simp [dictSet] at h
    exact Or.inl h
  | cons q rest ih =>
    obtain ⟨a, b0⟩ := q
    by_cases hq : a = k
    · subst hq
      rw [show dictSet a v ((a, b0) :: rest) = (a, v) :: rest by simp [dictSet]] at h
      rcases List.mem_cons.mp h with h | h
      · exact Or.inl h
      · exact Or.inr (List.mem_cons_of_mem _ h)
    · simp only [dictSet, if_neg hq, List.mem_cons] at h
      rcases h with h | h
      · exact Or.inr (h ▸ List.mem_cons_self _ _)
      · rcases ih h with h' | h'
        · exact Or.inl h'
        · exact Or.inr (List.mem_cons_of_mem _ h')

theorem mem_dictDel {p : α × β} {k : α} {m : List (α × β)}
    (h : p ∈ dictDel k m) : p ∈ m := by
  induction m with
  | nil => simp [dictDel] at h
  | cons q rest ih =>
    obtain ⟨a, b0⟩ := q
    by_cases hq : a = k
    · subst hq
      rw [show dictDel a ((a, b0) :: rest) = dictDel a rest by simp [dictDel]] at h
      exact List.mem_cons_of_mem _ (ih h)
    · simp only [dictDel, if_neg hq, List.mem_cons] at h
      rcases h with h | h
      · exact h ▸ List.mem_cons_self _ _
      · exact List.mem_cons_of_mem _ (ih h)

theorem dictGet_mem {k : α} {v : β} {m : List (α × β)}
    (h : dictGet k m = some v) : (k, v) ∈ m := by
  induction m with
  | nil => simp [dictGet] at h
  | cons p rest ih =>
    obtain ⟨a, b0⟩ := p
    by_cases hp : a = k
    · subst hp
      have hv : b0 = v := by simpa [dictGet] using h
      simp [← hv]
    · simp only [dictGet, if_neg hp] at h
      exact List.mem_cons_of_mem _ (ih h)

theorem dictGet_of_mem_nodup {k : α} {v : β} {m : List (α × β)}
    (hnd : (m.map Prod.fst).Nodup) (h : (k, v) ∈ m) : dictGet k m = some v := by
  induction m with
  | nil => simp at h
  | cons p rest ih =>
    obtain ⟨a, b0⟩ := p
    simp only [List.map_cons, List.nodup_cons] at hnd
    rcases List.mem_cons.mp h with h' | h'
    · rw [show a = k from (congrArg Prod.fst h'.symm),
        show b0 = v from (congrArg Prod.snd h'.symm)]
      simp [dictGet]
    · have hk : k ∈ rest.map Prod.fst := List.mem_map.mpr ⟨(k, v), h', rfl⟩
      have hp : ¬ a = k := fun he => hnd.1 (he ▸ hk)
      simp [dictGet, hp, ih hnd.2 h']

theorem dictMem_iff_mem_keys {k : α} {m : List (α × β)} :
    dictMem k m = true ↔ k ∈ m.map Prod.fst := by
  induction m with
  | nil => simp [dictMem, dictGet]
  | cons p rest ih =>
    obtain ⟨a, b0⟩ := p
    by_cases hp : a = k
    · subst hp
      simp [dictMem, dictGet]
    · have hka : ¬ k = a := fun h => hp h.symm
      simp only [dictMem, dictGet, if_neg hp, List.map_cons, List.mem_cons]
      simp only [dictMem] at ih
      simp [ih, hka]

theorem mem_keys_dictSet {x k : α} {v : β} {m : List (α × β)}
    (h : x ∈ (dictSet k v m).map Prod.fst) : x = k ∨ x ∈ m.map Prod.fst := by
  rcases List.mem_map.mp h with ⟨p, hp, hx⟩
  rcases mem_dictSet hp with h' | h'
  · left
    rw [← hx, h']
  · right
    exact hx ▸ List.mem_map.mpr ⟨p, h', rfl⟩

theorem nodup_keys_dictSet (k : α) (v : β) {m : List (α × β)}
    (h : (m.map Prod.fst).Nodup) : ((dictSet k v m).map Prod.fst).Nodup := by
  induction m with
  | nil => simp [dictSet]
  | cons p rest ih =>
    obtain ⟨a, b0⟩ := p
    simp only [List.map_cons, List.nodup_cons] at h
    by_cases hp : a = k
    · subst hp
      rw [show dictSet a v ((a, b0) :: rest) = (a, v) :: rest by simp [dictSet]]
      simp only [List.map_cons, List.nodup_cons]
      exact h
    · simp only [dictSet, if_neg hp, List.map_cons, List.nodup_cons]
      refine ⟨fun hmem => ?_, ih h.2⟩
      rcases mem_keys_dictSet hmem with h' | h'
      · exact hp h'
      · exact h.1 h'

theorem dictSet_ne_nil (k : α) (v : β) (m : List (α × β)) : dictSet k v m ≠ [] := by
  cases m with
  | nil => simp [dictSet]
  | cons p rest =>
    by_cases hp : p.1 = k <;> simp [dictSet, hp]

end DictLemmas

/-! ## Board lemmas -/

theorem boardGetB_boardSet_self (o dest : Coord) (t : Int) (e : FareEntry) (b : Board) :
    boardGetB (boardSet o dest t e b) o dest t = some e := by
  simp [boardSet, boardGetB, bucketGet, dictGet_dictSet]

theorem boardGetB_boardSet_ne (o dest : Coord) (t : Int) (e : FareEntry) (b : Board)
    (o' dest' : Coord) (t' : Int) (hne : (o', dest', t') ≠ (o, dest, t)) :
    boardGetB (boardSet o dest t e b) o' dest' t' = boardGetB b o' dest' t' := by
  by_cases ho : o = o'
  · subst ho
    by_cases hd : dest = dest'
    · subst hd
      have ht : ¬ t = t' := fun h => hne (by simp [h])
      cases hob : dictGet o b with
      | none => simp [boardSet, boardGetB, bucketGet, dictGet_dictSet, hob, ht, dictGet]
      | some dm =>
        cases hdd : dictGet dest dm with
        | none => simp [boardSet, boardGetB, bucketGet, dictGet_dictSet, hob, hdd, ht, dictGet]
        | some tm => simp [boardSet, boardGetB, bucketGet, dictGet_dictSet, hob, hdd, ht]
    · cases hob : dictGet o b with
      | none => simp [boardSet, boardGetB, bucketGet, dictGet_dictSet, hob, hd, dictGet]
      | some dm => simp [boardSet, boardGetB, bucketGet, dictGet_dictSet, hob, hd]
  · simp [boardSet, boardGetB, dictGet_dictSet, ho]

theorem fareBoard_ne_nil_of_boardGet {d : Dispatcher} {o dest : Coord} {t : Int} {e : FareEntry}
    (h : boardGet d o dest t = some e) : d.fareBoard ≠ [] := by
  intro hb
  rw [boardGet, boardGetB, hb] at h
  simp [dictGet] at h

/-! ## Winner-selection lemmas -/

theorem dictMem_dictSet {α β : Type} [DecidableEq α] (k j : α) (v : β) (m : List (α × β)) :
    dictMem j (dictSet k v m) = true ↔ (k = j ∨ dictMem j m = true) := by
  simp only [dictMem, dictGet_dictSet]
  by_cases h : k = j <;> simp [h]

theorem foldlMin_spec (l : List (Nat × ℚ)) (b : Nat × ℚ) :
    (l.foldl (fun x q => if q.2 < x.2 then q else x) b = b ∨
      l.foldl (fun x q => if q.2 < x.2 then q else x) b ∈ l) ∧
    (l.foldl (fun x q => if q.2 < x.2 then q else x) b).2 ≤ b.2 ∧
    ∀ q ∈ l, (l.foldl (fun x q => if q.2 < x.2 then q else x) b).2 ≤ q.2 := by
  induction l generalizing b with
  | nil => simp
  | cons p rest ih =>
    obtain ⟨h1, h2, h3⟩ := ih (if p.2 < b.2 then p else b)
    have hle1 : (if p.2 < b.2 then p else b).2 ≤ b.2 := by
      by_cases h : p.2 < b.2
      · simpa [h] using le_of_lt h
      · simp [h]
    have hle2 : (if p.2 < b.2 then p else b).2 ≤ p.2 := by
      by_cases h : p.2 < b.2
      · simp [h]
      · simpa [h] using le_of_not_lt h
    refine ⟨?_, ?_, ?_⟩
    · simp only [List.foldl_cons]
      rcases h1 with h | h
      · by_cases hc : p.2 < b.2
        · rw [h]
          simp [hc]
        · rw [h]
          simp [hc]
      · exact Or.inr (List.mem_cons_of_mem _ h)
    · simp only [List.foldl_cons]
      exact le_trans h2 hle1
    · intro q hq
      simp only [List.foldl_cons]
      rcases List.mem_cons.mp hq with h | h
      · rw [h]
        exact le_trans h2 hle2
      · exact h3 q h

theorem dictArgmin_spec {m : List (Nat × ℚ)} {k : Nat}
    (h : dictArgmin m = some k) : ∃ v, (k, v) ∈ m ∧ ∀ q ∈ m, v ≤ q.2 := by
  cases m with
  | nil => simp [dictArgmin] at h
  | cons p rest =>
    simp only [dictArgmin, Option.some.injEq] at h
    obtain ⟨h1, h2, h3⟩ := foldlMin_spec rest p
    refine ⟨(rest.foldl (fun x q => if q.2 < x.2 then q else x) p).2, ?_, ?_⟩
    · rw [← h]
      have heta : ((rest.foldl (fun x q => if q.2 < x.2 then q else x) p).1,
          (rest.foldl (fun x q => if q.2 < x.2 then q else x) p).2) =
          rest.foldl (fun x q => if q.2 < x.2 then q else x) p := rfl
      rw [heta]
      rcases h1 with he | he
      · rw [he]
        exact List.mem_cons_self _ _
      · exact List.mem_cons_of_mem _ he
    · intro q hq
      rcases List.mem_cons.mp hq with hh | hh
      · rw [hh]
        exact h2
      · exact h3 q hh

theorem dictArgmin_pair_left {a b : Nat} {ta tb : ℚ} (h : ta < tb) :
    dictArgmin [(a, ta), (b, tb)] = some a := by
  simp [dictArgmin, not_lt.mpr (le_of_lt h)]

theorem dictArgmin_pair_right {a b : Nat} {ta tb : ℚ} (h : tb < ta) :
    dictArgmin [(a, ta), (b, tb)] = some b := by
  simp [dictArgmin, h]

theorem taxisGet_of_bidderTime {w : World} {taxis : List Taxi} {fn : Option Nat}
    {i : Nat} {t : ℚ} (h : bidderTime w taxis fn i = some t) :
    ∃ tx, taxis.get? i = some tx := by
  unfold bidderTime at h
  cases hg : taxis.get? i with
  | none =>
    rw [hg] at h
    simp at h
  | some tx => exact ⟨tx, rfl⟩

theorem buildDicts_total (w : World) (taxis : List Taxi) (ledger : List (Nat × Nat))
    (fn : Option Nat) :
    ∀ {bs : List Nat}, (∀ b ∈ bs, (bidderTime w taxis fn b).isSome) →
    ∀ ini0 con0, ∃ ini con, buildDicts w taxis ledger fn bs ini0 con0 = some (ini, con) := by
  intro bs
  induction bs with
  | nil =>
    intro _ ini0 con0
    exact ⟨ini0, con0, rfl⟩
  | cons b rest ih =>
    intro h ini0 con0
    obtain ⟨tt, htt⟩ := Option.isSome_iff_exists.mp (h b (List.mem_cons_self _ _))
    have hrest := fun x hx => h x (List.mem_cons_of_mem _ hx)
    by_cases hm : dictMem b ledger = true
    · obtain ⟨ini, con, hic⟩ := ih hrest ini0 (dictSet b tt con0)
      exact ⟨ini, con, by simp [buildDicts, htt, hm, hic]⟩
    · obtain ⟨ini, con, hic⟩ := ih hrest (dictSet b tt ini0) con0
      exact ⟨ini, con, by simp [buildDicts, htt, hm, hic]⟩

theorem buildDicts_spec {w : World} {taxis : List Taxi} {ledger : List (Nat × Nat)}
    {fn : Option Nat} :
    ∀ {bs : List Nat} {ini0 con0 ini con : List (Nat × ℚ)},
      buildDicts w taxis ledger fn bs ini0 con0 = some (ini, con) →
      (∀ p ∈ ini, p ∈ ini0 ∨
        (dictMem p.1 ledger = false ∧ p.1 ∈ bs ∧ bidderTime w taxis fn p.1 = some p.2)) ∧
      (∀ p ∈ con, p ∈ con0 ∨
        (dictMem p.1 ledger = true ∧ p.1 ∈ bs ∧ bidderTime w taxis fn p.1 = some p.2)) ∧
      (∀ j, dictMem j ini0 = true → dictMem j ini = true) ∧
      (∀ j, dictMem j con0 = true → dictMem j con = true) ∧
      (∀ b ∈ bs, (dictMem b ledger = false → dictMem b ini = true) ∧
        (dictMem b ledger = true → dictMem b con = true)) := by
  intro bs
  induction bs with
  | nil =>
    intro ini0 con0 ini con heq
    simp only [buildDicts, Option.some.injEq, Prod.mk.injEq] at heq
    obtain ⟨h1, h2⟩ := heq
    subst h1
    subst h2
    exact ⟨fun p hp => Or.inl hp, fun p hp => Or.inl hp, fun j hj => hj, fun j hj => hj,
      fun b hb => absurd hb (by simp)⟩
  | cons b rest ih =>
    intro ini0 con0 ini con heq
    cases htt : bidderTime w taxis fn b with
    | none =>
      rw [buildDicts, htt] at heq
      simp at heq
    | some tt =>
      simp only [buildDicts, htt] at heq
      by_cases hm : dictMem b ledger = true
      · rw [if_pos hm] at heq
        obtain ⟨hini, hcon, hmi, hmc, hbs⟩ := ih heq
        refine ⟨?_, ?_, hmi, ?_, ?_⟩
        · intro p hp
          rcases hini p hp with h | ⟨ha, hb', hc⟩
          · exact Or.inl h
          · exact Or.inr ⟨ha, List.mem_cons_of_mem _ hb', hc⟩
        · intro p hp
          rcases hcon p hp with h | ⟨ha, hb', hc⟩
          · rcases mem_dictSet h with h' | h'
            · refine Or.inr ⟨?_, ?_, ?_⟩
              · rw [show p.1 = b from congrArg Prod.fst h']
                exact hm
              · rw [show p.1 = b from congrArg Prod.fst h']
                exact List.mem_cons_self _ _
              · rw [show p.1 = b from congrArg Prod.fst h',
                  show p.2 = tt from congrArg Prod.snd h']
                exact htt
            · exact Or.inl h'
          · exact Or.inr ⟨ha, List.mem_cons_of_mem _ hb', hc⟩
        · intro j hj
          exact hmc j ((dictMem_dictSet b j tt con0).mpr (Or.inr hj))
        · intro x hx
          rcases List.mem_cons.mp hx with h' | h'
          · subst h'
            refine ⟨fun hf => ?_, fun _ => ?_⟩
            · rw [hm] at hf
              exact absurd hf (by simp)
            · exact hmc x ((dictMem_dictSet x x tt con0).mpr (Or.inl rfl))
          · exact hbs x h'
      · rw [if_neg hm] at heq
        obtain ⟨hini, hcon, hmi, hmc, hbs⟩ := ih heq
        have hmf : dictMem b ledger = false := by
          cases hv : dictMem b ledger
          · rfl
          · exact absurd hv hm
        refine ⟨?_, ?_, ?_, hmc, ?_⟩
        · intro p hp
          rcases hini p hp with h | ⟨ha, hb', hc⟩
          · rcases mem_dictSet h with h' | h'
            · refine Or.inr ⟨?_, ?_, ?_⟩
              · rw [show p.1 = b from congrArg Prod.fst h']
                exact hmf
              · rw [show p.1 = b from congrArg Prod.fst h']
                exact List.mem_cons_self _ _
              · rw [show p.1 = b from congrArg Prod.fst h',
                  show p.2 = tt from congrArg Prod.snd h']
                exact htt
            · exact Or.inl h'
          · exact Or.inr ⟨ha, List.mem_cons_of_mem _ hb', hc⟩
        · intro p hp
          rcases hcon p hp with h | ⟨ha, hb', hc⟩
          · exact Or.inl h
          · exact Or.inr ⟨ha, List.mem_cons_of_mem _ hb', hc⟩
        · intro j hj
          exact hmi j ((dictMem_dictSet b j tt ini0).mpr (Or.inr hj))
        · intro x hx
          rcases List.mem_cons.mp hx with h' | h'
          · subst h'
            refine ⟨fun _ => ?_, fun ht => ?_⟩
            · exact hmi x ((dictMem_dictSet x x tt ini0).mpr (Or.inl rfl))
            · rw [ht] at hmf
              exact absurd hmf (by simp)
          · exact hbs x h'

theorem buildDicts_con_nodup {w : World} {taxis : List Taxi} {ledger : List (Nat × Nat)}
    {fn : Option Nat} :
    ∀ {bs : List Nat} {ini0 con0 ini con : List (Nat × ℚ)},
      buildDicts w taxis ledger fn bs ini0 con0 = some (ini, con) →
      (con0.map Prod.fst).Nodup → (con.map Prod.fst).Nodup := by
  intro bs
  induction bs with
  | nil =>
    intro ini0 con0 ini con heq h0
    simp only [buildDicts, Option.some.injEq, Prod.mk.injEq] at heq
    rw [← heq.2]
    exact h0
  | cons b rest ih =>
    intro ini0 con0 ini con heq h0
    cases htt : bidderTime w taxis fn b with
    | none =>
      rw [buildDicts, htt] at heq
      simp at heq
    | some tt =>
      simp only [buildDicts, htt] at heq
      by_cases hm : dictMem b ledger = true
      · rw [if_pos hm] at heq
        exact ih heq (nodup_keys_dictSet b tt h0)
      · rw [if_neg hm] at heq
        exact ih heq h0

theorem buildTimes_pair {w : World} {taxis : List Taxi} {fn : Option Nat}
    {a b : Nat} {ta tb : ℚ} (hne : a ≠ b)
    (ha : bidderTime w taxis fn a = some ta) (hb : bidderTime w taxis fn b = some tb) :
    buildTimes w taxis fn [a, b] [] = some [(a, ta), (b, tb)] := by
  simp only [buildTimes, ha, hb]
  simp [dictSet, fun h : a = b => hne h]

theorem mem_filterMem {allowed ks : List Nat} {x : Nat} :
    x ∈ filterMem allowed ks ↔ x ∈ ks ∧ x ∈ allowed := by
  induction ks with
  | nil => simp [filterMem]
  | cons k rest ih =>
    by_cases h : k ∈ allowed
    · simp only [filterMem, if_pos h, List.mem_cons, ih]
      constructor
      · rintro (rfl | ⟨h1, h2⟩)
        · exact ⟨Or.inl rfl, h⟩
        · exact ⟨Or.inr h1, h2⟩
      · rintro ⟨rfl | h1, h2⟩
        · exact Or.inl rfl
        · exact Or.inr ⟨h1, h2⟩
    · simp only [filterMem, if_neg h, ih, List.mem_cons]
      constructor
      · rintro ⟨h1, h2⟩
        exact ⟨Or.inr h1, h2⟩
      · rintro ⟨rfl | h1, h2⟩
        · exact absurd h2 h
        · exact ⟨h1, h2⟩

theorem nodup_filterMem {allowed ks : List Nat} (h : ks.Nodup) :
    (filterMem allowed ks).Nodup := by
  induction ks with
  | nil => simp [filterMem]
  | cons k rest ih =>
    simp only [List.nodup_cons] at h
    by_cases hk : k ∈ allowed
    · simp only [filterMem, if_pos hk, List.nodup_cons]
      exact ⟨fun hc => h.1 (mem_filterMem.mp hc).1, ih h.2⟩
    · simp only [filterMem, if_neg hk]
      exact ih h.2

theorem mem_keysWithVal {m : Nat} {ledger : List (Nat × Nat)} {x : Nat} :
    x ∈ keysWithVal m ledger ↔ (x, m) ∈ ledger := by
  induction ledger with
  | nil => simp [keysWithVal]
  | cons p rest ih =>
    obtain ⟨a, c⟩ := p
    by_cases h : c = m
    · subst h
      simp [keysWithVal, ih, Prod.ext_iff]
    · have hmc : ¬ (m = c) := fun hc => h hc.symm
      simp [keysWithVal, h, ih, Prod.ext_iff, hmc]

theorem nodup_two_mem_eq {l : List Nat} {a b : Nat} (hab : a ≠ b) (hnd : l.Nodup)
    (hiff : ∀ x, x ∈ l ↔ (x = a ∨ x = b)) : l = [a, b] ∨ l = [b, a] := by
  cases l with
  | nil => exact absurd ((hiff a).mpr (Or.inl rfl)) (by simp)
  | cons x rest =>
    cases rest with
    | nil =>
      rcases (hiff x).mp (List.mem_cons_self _ _) with rfl | rfl
      · have hb : b ∈ [x] := (hiff b).mpr (Or.inr rfl)
        simp at hb
        exact absurd hb.symm hab
      · have hb : a ∈ [x] := (hiff a).mpr (Or.inl rfl)
        simp at hb
        exact absurd hb hab
    | cons y rest2 =>
      cases rest2 with
      | nil =>
        have hx := (hiff x).mp (by simp)
        have hy := (hiff y).mp (by simp)
        have hxy : x ≠ y := by
          simp only [List.nodup_cons, List.mem_singleton, List.mem_cons] at hnd
          exact fun hc => hnd.1 (by simp [hc])
        rcases hx with rfl | rfl
        · rcases hy with rfl | rfl
          · exact absurd rfl hxy
          · exact Or.inl rfl
        · rcases hy with rfl | rfl
          · exact Or.inr rfl
          · exact absurd rfl hxy
      | cons z rest3 =>
        have hx := (hiff x).mp (by simp)
        have hy := (hiff y).mp (by simp)
        have hz := (hiff z).mp (by simp)
        exfalso
        simp only [List.nodup_cons, List.mem_cons] at hnd
        rcases hx with rfl | rfl <;> rcases hy with rfl | rfl <;>
          rcases hz with rfl | rfl <;> simp_all

/-! ## Bid-scan lemmas -/

theorem bucketGet_cons (d0 : Coord) (tm : List (Int × FareEntry))
    (rest : List (Coord × List (Int × FareEntry))) (ds : Coord) (t : Int) :
    bucketGet ((d0, tm) :: rest) ds t =
      if d0 = ds then dictGet t tm else bucketGet rest ds t := by
  by_cases hd : d0 = ds <;> simp [bucketGet, dictGet, hd]

theorem bidTimeScan_taxi {idx : Nat} :
    ∀ {tm tm' : List (Int × FareEntry)}, bidTimeScan idx tm = some tm' →
    ∀ t, (dictGet t tm').map FareEntry.taxi = (dictGet t tm).map FareEntry.taxi := by
  intro tm
  induction tm with
  | nil =>
    intro tm' h
    simp [bidTimeScan] at h
  | cons p rest ih =>
    intro tm' h t
    obtain ⟨t0, e0⟩ := p
    by_cases he : e0.taxi = -1
    · simp only [bidTimeScan, if_pos he, Option.some.injEq] at h
      subst h
      by_cases ht : t0 = t <;> simp [dictGet, ht]
    · simp only [bidTimeScan, if_neg he] at h
      cases hs : bidTimeScan idx rest with
      | none =>
        rw [hs] at h
        simp at h
      | some rest' =>
        rw [hs] at h
        simp only [Option.some.injEq] at h
        subst h
        by_cases ht : t0 = t <;> simp [dictGet, ht, ih hs t]

theorem bidDestScan_taxi {idx : Nat} :
    ∀ {dm dm'}, bidDestScan idx dm = some dm' →
    ∀ ds t, (bucketGet dm' ds t).map FareEntry.taxi =
      (bucketGet dm ds t).map FareEntry.taxi := by
  intro dm
  induction dm with
  | nil =>
    intro dm' h
    simp [bidDestScan] at h
  | cons p rest ih =>
    intro dm' h ds t
    obtain ⟨d0, tm0⟩ := p
    cases hs : bidTimeScan idx tm0 with
    | some tm0' =>
      simp only [bidDestScan, hs, Option.some.injEq] at h
      subst h
      rw [bucketGet_cons, bucketGet_cons]
      by_cases hd : d0 = ds
      · simp only [if_pos hd]
        exact bidTimeScan_taxi hs t
      · simp [if_neg hd]
    | none =>
      simp only [bidDestScan, hs] at h
      cases hr : bidDestScan idx rest with
      | none =>
        rw [hr] at h
        simp at h
      | some rest' =>
        rw [hr] at h
        simp only [Option.some.injEq] at h
        subst h
        rw [bucketGet_cons, bucketGet_cons]
        by_cases hd : d0 = ds
        · simp [if_pos hd]
        · simp only [if_neg hd]
          exact ih hr ds t

theorem fareBid_taxi (o : Coord) (tx : Taxi) (d : Dispatcher) (o' ds : Coord) (t : Int) :
    (boardGet (fareBid o tx d) o' ds t).map FareEntry.taxi =
      (boardGet d o' ds t).map FareEntry.taxi := by
  by_cases hm : tx ∈ d.taxis
  · cases hg : dictGet o d.fareBoard with
    | none =>
      have hfb : fareBid o tx d = d := by
        unfold fareBid
        rw [if_pos hm, hg]
      rw [hfb]
    | some dm =>
      cases hs : bidDestScan (listIndexOf tx d.taxis) dm with
      | none =>
        have hfb : fareBid o tx d = d := by
          unfold fareBid
          rw [if_pos hm, hg]
          simp only [hs]
        rw [hfb]
      | some dm' =>
        have hfb : fareBid o tx d = { d with fareBoard := dictSet o dm' d.fareBoard } := by
          unfold fareBid
          rw [if_pos hm, hg]
          simp only [hs]
        rw [hfb]
        simp only [boardGet, boardGetB]
        rw [dictGet_dictSet]
        by_cases ho : o = o'
        · rw [if_pos ho, ← ho, hg]
          exact bidDestScan_taxi hs ds t
        · rw [if_neg ho]
  · have hfb : fareBid o tx d = d := by
      unfold fareBid
      rw [if_neg hm]
    rw [hfb]

theorem firstOpenTime_mem : ∀ {tm : List (Int × FareEntry)} {t : Int} {e : FareEntry},
    firstOpenTime tm = some (t, e) → (t, e) ∈ tm ∧ e.taxi = -1 := by
  intro tm
  induction tm with
  | nil =>
    intro t e h
    simp [firstOpenTime] at h
  | cons p rest ih =>
    intro t e h
    obtain ⟨t0, e0⟩ := p
    by_cases he : e0.taxi = -1
    · simp only [firstOpenTime, if_pos he, Option.some.injEq, Prod.mk.injEq] at h
      obtain ⟨rfl, rfl⟩ := h
      exact ⟨List.mem_cons_self _ _, he⟩
    · simp only [firstOpenTime, if_neg he] at h
      obtain ⟨hm, ht⟩ := ih h
      exact ⟨List.mem_cons_of_mem _ hm, ht⟩

theorem bidTimeScan_none_iff {idx : Nat} :
    ∀ {tm : List (Int × FareEntry)}, bidTimeScan idx tm = none ↔ firstOpenTime tm = none := by
  intro tm
  induction tm with
  | nil => simp [bidTimeScan, firstOpenTime]
  | cons p rest ih =>
    obtain ⟨t0, e0⟩ := p
    by_cases he : e0.taxi = -1
    · simp [bidTimeScan, firstOpenTime, he]
    · simp only [bidTimeScan, firstOpenTime, if_neg he]
      cases hs : bidTimeScan idx rest with
      | none => simp [← ih, hs]
      | some rest' => simp [← ih, hs]

theorem bidTimeScan_firstOpen (idx : Nat) :
    ∀ {tm : List (Int × FareEntry)} {t : Int} {e : FareEntry},
      (tm.map Prod.fst).Nodup → firstOpenTime tm = some (t, e) →
      bidTimeScan idx tm = some (dictSet t { e with bidders := e.bidders ++ [idx] } tm) := by
  intro tm
  induction tm with
  | nil =>
    intro t e _ h
    simp [firstOpenTime] at h
  | cons p rest ih =>
    intro t e hnd h
    obtain ⟨t0, e0⟩ := p
    simp only [List.map_cons, List.nodup_cons] at hnd
    by_cases he : e0.taxi = -1
    · simp only [firstOpenTime, if_pos he, Option.some.injEq, Prod.mk.injEq] at h
      obtain ⟨rfl, rfl⟩ := h
      simp [bidTimeScan, he, dictSet]
    · simp only [firstOpenTime, if_neg he] at h
      have hmem : t ∈ rest.map Prod.fst := by
        rcases firstOpenTime_mem h with ⟨hm, _⟩
        exact List.mem_map.mpr ⟨(t, e), hm, rfl⟩
      have ht0 : ¬ t0 = t := fun hc => hnd.1 (hc ▸ hmem)
      simp only [bidTimeScan, if_neg he, ih hnd.2 h]
      simp [dictSet, ht0]

theorem firstOpenFare_key_mem : ∀ {dm : List (Coord × List (Int × FareEntry))}
    {dst : Coord} {t : Int} {e : FareEntry},
    firstOpenFare dm = some (dst, t, e) → dst ∈ dm.map Prod.fst := by
  intro dm
  induction dm with
  | nil =>
    intro dst t e h
    simp [firstOpenFare] at h
  | cons p rest ih =>
    intro dst t e h
    obtain ⟨d0, tm0⟩ := p
    cases hf : firstOpenTime tm0 with
    | some pe =>
      obtain ⟨t1, e1⟩ := pe
      rw [firstOpenFare, hf] at h
      simp only [Option.some.injEq, Prod.mk.injEq] at h
      simp [h.1]
    | none =>
      rw [firstOpenFare, hf] at h
      exact List.mem_cons_of_mem _ (ih h)

theorem bidDestScan_firstOpen (idx : Nat) :
    ∀ {dm : List (Coord × List (Int × FareEntry))} {dst : Coord} {t : Int} {e : FareEntry},
      (dm.map Prod.fst).Nodup → (∀ q ∈ dm, (q.2.map Prod.fst).Nodup) →
      firstOpenFare dm = some (dst, t, e) →
      ∃ tm, dictGet dst dm = some tm ∧ firstOpenTime tm = some (t, e) ∧
        bidDestScan idx dm =
          some (dictSet dst (dictSet t { e with bidders := e.bidders ++ [idx] } tm) dm) := by
  intro dm
  induction dm with
  | nil =>
    intro dst t e _ _ h
    simp [firstOpenFare] at h
  | cons p rest ih =>
    intro dst t e hnd1 hnd2 h
    obtain ⟨d0, tm0⟩ := p
    simp only [List.map_cons, List.nodup_cons] at hnd1
    cases hf : firstOpenTime tm0 with
    | some pe =>
      obtain ⟨t1, e1⟩ := pe
      rw [firstOpenFare, hf] at h
      simp only [Option.some.injEq, Prod.mk.injEq] at h
      obtain ⟨rfl, rfl, rfl⟩ := h
      have hscan := bidTimeScan_firstOpen idx
        (hnd2 _ (List.mem_cons_self _ _)) hf
      refine ⟨tm0, by simp [dictGet], hf, ?_⟩
      simp only [bidDestScan, hscan]
      simp [dictSet]
    | none =>
      rw [firstOpenFare, hf] at h
      have hscan0 : bidTimeScan idx tm0 = none := bidTimeScan_none_iff.mpr hf
      obtain ⟨tm, hg, hfo, hscan⟩ :=
        ih hnd1.2 (fun q hq => hnd2 q (List.mem_cons_of_mem _ hq)) h
      have hdst : dst ∈ rest.map Prod.fst := by
        exact List.mem_map.mpr ⟨(dst, tm), dictGet_mem hg, rfl⟩
      have hd0 : ¬ d0 = dst := fun hc => hnd1.1 (hc ▸ hdst)
      refine ⟨tm, by simp [dictGet, hd0, hg], hfo, ?_⟩
      simp only [bidDestScan, hscan0, hscan]
      simp [dictSet, hd0]

/-- When a known taxi finds an open fare, `fareBid` is exactly a `boardSet`
of that entry with the bidder index appended. -/
theorem fareBid_eq_boardSet {o : Coord} {tx : Taxi} {d : Dispatcher}
    {dm : List (Coord × List (Int × FareEntry))} {dst : Coord} {t : Int} {e : FareEntry}
    (hmem : tx ∈ d.taxis) (hg : dictGet o d.fareBoard = some dm)
    (hnd : boardKeysNodup d.fareBoard)
    (hfo : firstOpenFare dm = some (dst, t, e)) :
    (fareBid o tx d).fareBoard =
      boardSet o dst t { e with bidders := e.bidders ++ [listIndexOf tx d.taxis] } d.fareBoard ∧
    (fareBid o tx d).taxis = d.taxis ∧
    (fareBid o tx d).fareAmountConstraint = d.fareAmountConstraint := by
  obtain ⟨hnd1, hnd2⟩ := hnd
  have hdmmem : (o, dm) ∈ d.fareBoard := dictGet_mem hg
  have hdmnd : (dm.map Prod.fst).Nodup := (hnd2 (o, dm) hdmmem).1
  have htmnd : ∀ q ∈ dm, (q.2.map Prod.fst).Nodup := (hnd2 (o, dm) hdmmem).2
  obtain ⟨tm, htm, hfot, hscan⟩ := bidDestScan_firstOpen (listIndexOf tx d.taxis)
    hdmnd htmnd hfo
  refine ⟨?_, ?_, ?_⟩
  · unfold fareBid
    rw [if_pos hmem, hg]
    simp only [hscan]
    unfold boardSet
    rw [hg]
    simp only [Option.getD_some, htm]
  · unfold fareBid
    rw [if_pos hmem, hg]
    simp only [hscan]
  · unfold fareBid
    rw [if_pos hmem, hg]
    simp only [hscan]

/-! ## Allocation frame lemma -/

theorem allocateFare_board_cases (w : World) (o dest : Coord) (t : Int) (d : Dispatcher) :
    ((allocateFare w o dest t d).state.fareBoard = d.fareBoard ∧
      (allocateFare w o dest t d).state.taxis = d.taxis) ∨
    ∃ e', (allocateFare w o dest t d).state.fareBoard = boardSet o dest t e' d.fareBoard ∧
      (allocateFare w o dest t d).state.taxis = d.taxis := by
  unfold allocateFare
  repeat' split
  all_goals first
    | exact Or.inl ⟨rfl, rfl⟩
    | exact Or.inr ⟨_, rfl, rfl⟩

/-! ## Tick invariant machinery: assigned entries are never overwritten -/

theorem processFare_taxi_preserved (w : World) (o dest : Coord) (t : Int) (d : Dispatcher)
    (o' ds : Coord) (t' : Int) (e : FareEntry)
    (he : boardGet d o' ds t' = some e) (hv : 0 ≤ e.taxi) :
    ∃ e', boardGet (processFare w o dest t d).state o' ds t' = some e' ∧
      e'.taxi = e.taxi := by
  unfold processFare
  split
  · exact ⟨e, he, rfl⟩
  next e0 hbg =>
    by_cases hp : e0.price = 0
    · rw [if_pos hp]
      split
      · exact ⟨e, he, rfl⟩
      next p hc =>
        by_cases hk : (o', ds, t') = (o, dest, t)
        · simp only [Prod.mk.injEq] at hk
          obtain ⟨rfl, rfl, rfl⟩ := hk
          rw [he] at hbg
          have he0 : e = e0 := by injection hbg
          subst he0
          refine ⟨{ e with price := p }, ?_, rfl⟩
          show boardGetB (boardSet o' ds t' { e with price := p } d.fareBoard) o' ds t' =
            some { e with price := p }
          exact boardGetB_boardSet_self o' ds t' _ d.fareBoard
        · refine ⟨e, ?_, rfl⟩
          show boardGetB (boardSet o dest t { e0 with price := p } d.fareBoard) o' ds t' =
            some e
          rw [boardGetB_boardSet_ne _ _ _ _ _ _ _ _ hk]
          exact he
    · rw [if_neg hp]
      by_cases ha : e0.taxi < 0 ∧ e0.bidders ≠ []
      · rw [if_pos ha]
        rcases allocateFare_board_cases w o dest t d with ⟨hb, _⟩ | ⟨e1, hb, _⟩
        · refine ⟨e, ?_, rfl⟩
          rw [boardGet, hb]
          exact he
        · by_cases hk : (o', ds, t') = (o, dest, t)
          · exfalso
            simp only [Prod.mk.injEq] at hk
            obtain ⟨rfl, rfl, rfl⟩ := hk
            rw [he] at hbg
            have he0 : e = e0 := by injection hbg
            rw [he0] at hv
            exact absurd ha.1 (not_lt.mpr hv)
          · refine ⟨e, ?_, rfl⟩
            rw [boardGet, hb, boardGetB_boardSet_ne _ _ _ _ _ _ _ _ hk]
            exact he
      · rw [if_neg ha]
        exact ⟨e, he, rfl⟩

theorem tickFold_taxi_preserved (w : World) :
    ∀ (ks : List (Coord × Coord × Int)) (acc : StepRes) (o' ds : Coord) (t' : Int)
      (e : FareEntry),
      boardGet acc.state o' ds t' = some e → 0 ≤ e.taxi →
      ∃ e', boardGet (ks.foldl (stepFold w) acc).state o' ds t' = some e' ∧
        e'.taxi = e.taxi := by
  intro ks
  induction ks with
  | nil =>
    intro acc o' ds t' e he hv
    exact ⟨e, he, rfl⟩
  | cons k rest ih =>
    intro acc o' ds t' e he hv
    simp only [List.foldl_cons]
    by_cases ho : acc.ok = true
    · have hsf : stepFold w acc k = ⟨(processFare w k.1 k.2.1 k.2.2 acc.state).state,
          acc.out ++ (processFare w k.1 k.2.1 k.2.2 acc.state).out,
          (processFare w k.1 k.2.1 k.2.2 acc.state).ok⟩ := by
        unfold stepFold
        rw [if_pos ho]
      rw [hsf]
      obtain ⟨e1, he1, ht1⟩ :=
        processFare_taxi_preserved w k.1 k.2.1 k.2.2 acc.state o' ds t' e he hv
      obtain ⟨e2, he2, ht2⟩ := ih ⟨(processFare w k.1 k.2.1 k.2.2 acc.state).state,
        acc.out ++ (processFare w k.1 k.2.1 k.2.2 acc.state).out,
        (processFare w k.1 k.2.1 k.2.2 acc.state).ok⟩ o' ds t' e1 he1 (by rw [ht1]; exact hv)
      exact ⟨e2, he2, ht2.trans ht1⟩
    · have hsf : stepFold w acc k = acc := by
        unfold stepFold
        rw [if_neg ho]
      rw [hsf]
      exact ih acc o' ds t' e he hv

theorem clockTick_taxi_preserved (w : World) (cw : Nat) (d : Dispatcher)
    (o' ds : Coord) (t' : Int) (e : FareEntry)
    (he : boardGet d o' ds t' = some e) (hv : 0 ≤ e.taxi) :
    ∃ e', boardGet (clockTick w cw d).state o' ds t' = some e' ∧ e'.taxi = e.taxi := by
  unfold clockTick
  by_cases hc : cw = d.parent
  · rw [if_pos hc]
    exact tickFold_taxi_preserved w _ ⟨d, [], true⟩ o' ds t' e he hv
  · rw [if_neg hc]
    exact ⟨e, he, rfl⟩

theorem recvPayment_board (cw : Nat) (a : ℚ) (d : Dispatcher) :
    (recvPayment cw a d).fareBoard = d.fareBoard := by
  unfold recvPayment
  split <;> rfl

/-! ## Concrete fixtures for the claim analyses -/

/-- A taxi with a given identity and location and an empty planned path. -/
def mkTaxi (n : Nat) (loc : Coord) : Taxi where
  number := n
  currentLocation := loc
  path := []
  revenue := 0

/-- World for the stuck-agent-guard scenario: origin `(0,0)` is node 0,
destination `(1,1)` node 1, the bidder's location `(2,2)` node 2, and the
travel time from node 2 to the origin node is 1. -/
def WA : World where
  wid := 0
  getNode := fun c =>
    if c = ((0 : Int), (0 : Int)) then some 0
    else if c = (1, 1) then some 1
    else if c = (2, 2) then some 2
    else none
  travelTime := fun a b => if a = 2 ∧ b = 0 then 1 else 7

/-- The single bidder of the guard scenario: its planned path is one stop
ending exactly at the fare origin, so the guard condition fires on it. -/
def TA : Taxi where
  number := 0
  currentLocation := (2, 2)
  path := [((0 : Int), (0 : Int))]
  revenue := 0

/-- A priced, unallocated fare with one bidder (taxi index 0). -/
def EA : FareEntry where
  origin := (0, 0)
  destination := (1, 1)
  calltime := 0
  price := 20
  taxi := -1
  bidders := [0]

/-- Dispatcher state for the guard scenario. -/
def DA : Dispatcher where
  parent := 0
  revenue := 0
  taxis := [TA]
  fareBoard := [(((0 : Int), (0 : Int)), [(((1 : Int), (1 : Int)), [((0 : Int), EA)])])]
  fareAmountConstraint := []

/-- World for the veteran tie-break scenarios: taxi locations `(10+i, 0)` are
nodes `10+i`; travel times to the origin node 0 are 5, 6, 2, 9. -/
def WB : World where
  wid := 0
  getNode := fun c =>
    if c = ((0 : Int), (0 : Int)) then some 0
    else if c = (1, 1) then some 1
    else if c = (10, 0) then some 10
    else if c = (11, 0) then some 11
    else if c = (12, 0) then some 12
    else if c = (13, 0) then some 13
    else none
  travelTime := fun a b =>
    if a = 10 ∧ b = 0 then 5
    else if a = 11 ∧ b = 0 then 6
    else if a = 12 ∧ b = 0 then 2
    else if a = 13 ∧ b = 0 then 9
    else 3

/-- A priced, unallocated fare with bidders 0, 1 and 2. -/
def EB : FareEntry where
  origin := (0, 0)
  destination := (1, 1)
  calltime := 0
  price := 7
  taxi := -1
  bidders := [0, 1, 2]

/-- Tie-break counterexample state: bidders 0 and 1 share count 2, bidder 2
has count 3, and the non-bidding taxi 3 holds the global minimum count 1. -/
def DB : Dispatcher where
  parent := 0
  revenue := 0
  taxis := [mkTaxi 0 (10, 0), mkTaxi 1 (11, 0), mkTaxi 2 (12, 0), mkTaxi 3 (13, 0)]
  fareBoard := [(((0 : Int), (0 : Int)), [(((1 : Int), (1 : Int)), [((0 : Int), EB)])])]
  fareAmountConstraint := [(0, 2), (1, 2), (2, 3), (3, 1)]

/-- Tie-break witness state: bidders 0 and 1 share count 2, which is also the
global minimum; bidder 2 has count 5 but the smallest travel time. -/
def DBw : Dispatcher where
  parent := 0
  revenue := 0
  taxis := [mkTaxi 0 (10, 0), mkTaxi 1 (11, 0), mkTaxi 2 (12, 0)]
  fareBoard := [(((0 : Int), (0 : Int)), [(((1 : Int), (1 : Int)), [((0 : Int), EB)])])]
  fareAmountConstraint := [(0, 2), (1, 2), (2, 5)]

/-- An unallocated priced fare used by the cancellation scenarios. -/
def EC : FareEntry where
  origin := (0, 0)
  destination := (1, 1)
  calltime := 3
  price := 5
  taxi := -1
  bidders := []

/-- Cancellation scenario with an unallocated fare and no taxis at all. -/
def DC6 : Dispatcher where
  parent := 0
  revenue := 0
  taxis := []
  fareBoard := [(((0 : Int), (0 : Int)), [(((1 : Int), (1 : Int)), [((3 : Int), EC)])])]
  fareAmountConstraint := []

/-- A known taxi for the bid and cancellation scenarios. -/
def TC : Taxi where
  number := 0
  currentLocation := (10, 0)
  path := []
  revenue := 0

/-- Cancellation scenario with an unallocated fare and one known taxi. -/
def DC7 : Dispatcher where
  parent := 0
  revenue := 0
  taxis := [TC]
  fareBoard := [(((0 : Int), (0 : Int)), [(((1 : Int), (1 : Int)), [((3 : Int), EC)])])]
  fareAmountConstraint := []

/-- A dispatcher with one known taxi and an empty board,
used to build the bid scenarios through `newFare` and `fareBid`. -/
def DCbase : Dispatcher where
  parent := 0
  revenue := 0
  taxis := [TC]
  fareBoard := []
  fareAmountConstraint := []

/-- One open fare registered at `(0,0) → (1,1)`, call time 4. -/
def DCB : Dispatcher := newFare 0 (0, 0) (1, 1) 4 DCbase

/-- Two open fares at the same origin and destination, call time 5 registered
before call time 3. -/
def DC9 : Dispatcher := newFare 0 (0, 0) (1, 1) 3 (newFare 0 (0, 0) (1, 1) 5 DCbase)

/-! ## Claim theorems: concrete counterexamples and code-bug evaluations -/

/-- C1 (code bug): with a priced, unallocated, single-bidder fare whose sole
bidder's own planned path is non-empty and terminates exactly at the fare
origin with length equal to that bidder's origin travel-time estimate, the
stuck-agent guard does fire (it nulls the fare node), yet `_allocateFare`
still allocates the fare: the assigned-taxi field becomes 0 and the fairness
count of taxi 0 is incremented — the claim says the fare must stay
unallocated with no fairness increment. -/
theorem C1_guard_does_not_defer :
    (TA.path ≠ [] ∧ (TA.path.length : ℚ) = WA.travelTime 2 0 ∧
      TA.path.getLast? = some (0, 0)) ∧
    WA.getNode TA.currentLocation = some 2 ∧
    WA.getNode ((0 : Int), (0 : Int)) = some 0 ∧
    (boardGet DA (0, 0) (1, 1) 0).map FareEntry.price = some 20 ∧
    (boardGet DA (0, 0) (1, 1) 0).map FareEntry.taxi = some (-1) ∧
    (boardGet DA (0, 0) (1, 1) 0).map FareEntry.bidders = some [0] ∧
    guardLoop WA DA.taxis (0, 0) (1, 1) [0] (some 0) = some none ∧
    (boardGet (allocateFare WA (0, 0) (1, 1) 0 DA).state (0, 0) (1, 1) 0).map
      FareEntry.taxi = some 0 ∧
    (allocateFare WA (0, 0) (1, 1) 0 DA).state.fareAmountConstraint = [(0, 1)] := by
  have hgc : guardCheck (0, 0) (1, 1) 1 7 (some 0) [TA] = none := by
    norm_num [guardCheck, TA]
  have hgl : guardLoop WA DA.taxis (0, 0) (1, 1) [0] (some 0) = some none := by
    show guardLoop WA [TA] (0, 0) (1, 1) [0] (some 0) = some none
    rw [guardLoop]
    rw [show bidderTime WA [TA] (some 0) 0 = some 1 from by decide]
    rw [show bidderTime WA [TA] (WA.getNode (1, 1)) 0 = some 7 from by decide]
    simp only [guardLoop, hgc]
  exact ⟨by decide, by decide, by decide, by decide, by decide, by decide, hgl,
    by decide, by decide⟩

/-- C2 (code bug): the pricing computation does not always complete for a
positive travel time: at `T = 1/10` the very first sample already violates
the ceiling, so the source's capping loop compares the uninitialized
(`None`) sample and raises a `TypeError` (modelled as `none`); the fixed-150
branch for `T = 0` works as claimed. -/
theorem costFareCalc_eq_none {T : ℚ} (h0 : 0 < T)
    (h1 : ¬ ((0 : ℚ) + T / (9 / 10) < 10 * T - 1)) : costFareCalc T = none := by
  have hl : costLoopAux T (10 * T) 0 200 none = none := by
    show costLoopAux T (10 * T) 0 (199 + 1) none = none
    rw [costLoopAux, if_neg (by exact_mod_cast h1)]
  unfold costFareCalc
  simp only [if_pos h0, hl]

theorem C2_costFare_crashes_on_small_time :
    costFareCalc (1 / 10) = none ∧ costFareCalc 0 = some 150 := by
  constructor
  · exact costFareCalc_eq_none (by norm_num) (by norm_num)
  · unfold costFareCalc
    simp only [if_neg (by norm_num : ¬ (0 : ℚ) < 0)]

/-- C4 counterexample: bidders 0 and 1 are the unique pair of bidders with
equal fairness counts (2 each; bidder 2 has count 3), bidder 0 is closer to
the origin than bidder 1 (5 < 6), but their shared count is not the global
minimum of the ledger (the non-bidding taxi 3 has count 1), so no bidder
matches the global minimum and the fallback awards the fare to bidder 2 —
the bidder with the smallest travel time overall — not to one of the tied
pair as the claim requires. -/
theorem C4_fallback_ignores_tied_pair :
    dictGet 0 DB.fareAmountConstraint = some 2 ∧
    dictGet 1 DB.fareAmountConstraint = some 2 ∧
    dictGet 2 DB.fareAmountConstraint = some 3 ∧
    dictGet 3 DB.fareAmountConstraint = some 1 ∧
    (boardGet DB (0, 0) (1, 1) 0).map FareEntry.bidders = some [0, 1, 2] ∧
    bidderTime WB DB.taxis (some 0) 0 = some 5 ∧
    bidderTime WB DB.taxis (some 0) 1 = some 6 ∧
    bidderTime WB DB.taxis (some 0) 2 = some 2 ∧
    (boardGet (allocateFare WB (0, 0) (1, 1) 0 DB).state (0, 0) (1, 1) 0).map
      FareEntry.taxi = some 2 := by
  decide

/-- C6 counterexample: cancelling a present, unallocated fare when the taxi
list is empty raises an `IndexError` (the source evaluates
`self._taxis[-1]`), so the call errors out and the entry is NOT removed —
the claim requires removal for every present key. -/
theorem C6_cancel_raises_and_keeps_entry :
    DC6.taxis = [] ∧
    (boardGet DC6 (0, 0) (1, 1) 3).map FareEntry.taxi = some (-1) ∧
    (cancelFare 0 (0, 0) (1, 1) 3 DC6).ok = false ∧
    boardGet (cancelFare 0 (0, 0) (1, 1) 3 DC6).state (0, 0) (1, 1) 3 = some EC := by
  decide

/-- C7 (code bug): cancelling a present but unallocated fare (`taxi = -1`)
does not notify "no taxi": Python's negative indexing makes the source pass
the LAST known taxi to the environment's `cancelFare`, here the unrelated
taxi `TC` (and with an empty taxi list the same line raises an
`IndexError`). -/
theorem C7_cancel_notifies_unrelated_taxi :
    (boardGet DC7 (0, 0) (1, 1) 3).map FareEntry.taxi = some (-1) ∧
    (cancelFare 0 (0, 0) (1, 1) 3 DC7).out = [OutCall.cancel (0, 0) TC] ∧
    (cancelFare 0 (0, 0) (1, 1) 3 DC7).ok = true := by
  decide

/-- C8 counterexample: a second bid by the same known taxi on the same
still-unallocated fare does not leave the bidder list unchanged — the
source appends unconditionally, so the list becomes `[0, 0]` and the taxi
appears twice. -/
theorem C8_double_bid_duplicates :
    (boardGet (fareBid (0, 0) TC (fareBid (0, 0) TC DCB)) (0, 0) (1, 1) 4).map
      FareEntry.bidders = some [0, 0] := by
  decide

/-- C9 counterexample: with two open fares registered at the same origin and
destination, call time 5 before call time 3, a bid is recorded on the
insertion-order-first fare (time 5), not on the ascending-sorted-first fare
(time 3) as the claim requires. -/
theorem C9_bid_ignores_sorted_order :
    (boardGet (fareBid (0, 0) TC DC9) (0, 0) (1, 1) 5).map FareEntry.bidders = some [0] ∧
    (boardGet (fareBid (0, 0) TC DC9) (0, 0) (1, 1) 3).map FareEntry.bidders =
      some ([] : List Nat) := by
  decide

/-! ## C5 and C10: invariants of event handling -/

/-- C5: over any sequence of runtime events (bids, clock ticks, payments),
once a fare entry's assigned-taxi field holds a non-negative value, the entry
stays present with exactly that value: `fareBid` never touches the field,
`recvPayment` never touches the board, and `clockTick` only allocates fares
whose field is still `-1`. -/
theorem C5_assigned_taxi_immutable (w : World) (es : List Event) (d : Dispatcher)
    (o ds : Coord) (t : Int) (e : FareEntry)
    (he : boardGet d o ds t = some e) (hv : 0 ≤ e.taxi) :
    ∃ e', boardGet (runEvents w es d) o ds t = some e' ∧ e'.taxi = e.taxi := by
  induction es generalizing d e with
  | nil => exact ⟨e, he, rfl⟩
  | cons ev rest ih =>
    rw [show runEvents w (ev :: rest) d = runEvents w rest (applyEvent w ev d) from rfl]
    have hstep : ∃ e1, boardGet (applyEvent w ev d) o ds t = some e1 ∧
        e1.taxi = e.taxi := by
      cases ev with
      | bid o0 tx =>
        have hmap := fareBid_taxi o0 tx d o ds t
        rw [he, Option.map_some'] at hmap
        exact Option.map_eq_some'.mp hmap
      | tick cw => exact clockTick_taxi_preserved w cw d o ds t e he hv
      | pay cw a =>
        refine ⟨e, ?_, rfl⟩
        show boardGetB (recvPayment cw a d).fareBoard o ds t = some e
        rw [recvPayment_board]
        exact he
    obtain ⟨e1, he1, ht1⟩ := hstep
    obtain ⟨e2, he2, ht2⟩ := ih (applyEvent w ev d) e1 he1 (by rw [ht1]; exact hv)
    exact ⟨e2, he2, ht2.trans ht1⟩

/-- An already-allocated priced fare, used by the C5 witness. -/
def ED : FareEntry where
  origin := (0, 0)
  destination := (1, 1)
  calltime := 7
  price := 12
  taxi := 0
  bidders := [0]

/-- Dispatcher state holding `ED`, used by the C5 witness. -/
def DD : Dispatcher where
  parent := 0
  revenue := 0
  taxis := [TC]
  fareBoard := [(((0 : Int), (0 : Int)), [(((1 : Int), (1 : Int)), [((7 : Int), ED)])])]
  fareAmountConstraint := [(0, 1)]

/-- Witness for C5: a payment, a bid and a tick leave the allocated entry's
assigned taxi at 0. -/
theorem C5_assigned_taxi_immutable_witness :
    ∃ e', boardGet (runEvents WB [Event.pay 0 3, Event.bid (0, 0) TC, Event.tick 0] DD)
      (0, 0) (1, 1) 7 = some e' ∧ e'.taxi = ED.taxi :=
  C5_assigned_taxi_immutable WB [Event.pay 0 3, Event.bid (0, 0) TC, Event.tick 0] DD
    (0, 0) (1, 1) 7 ED (by decide) (by decide)

/-- C10: `handover` never touches the fairness ledger `fareAmountConstraint`
(so a taxi that has only ever received fares through handover is still
classified as a first-timer by the multi-bidder allocation, which partitions
bidders by ledger membership), even though, for a matching world, the
handed-over fare's assigned-taxi field is set to the taxi's non-negative
index. -/
theorem C10_handover_preserves_ledger (cw : Nat) (o dest : Coord) (t : Int) (tx : Taxi)
    (price : ℚ) (d : Dispatcher) :
    (handover cw o dest t tx price d).state.fareAmountConstraint = d.fareAmountConstraint ∧
    (cw = d.parent →
      ∃ e, boardGet (handover cw o dest t tx price d).state o dest t = some e ∧
        0 ≤ e.taxi) := by
  by_cases hc : cw = d.parent
  · by_cases hm : tx ∈ d.taxis
    · have hbg : boardGet (newFare cw o dest t d) o dest t =
          some ⟨o, dest, t, 0, -1, []⟩ := by
        rw [show newFare cw o dest t d = { d with
            fareBoard := boardSet o dest t ⟨o, dest, t, 0, -1, []⟩ d.fareBoard } from by
          unfold newFare
          rw [if_pos hc]]
        exact boardGetB_boardSet_self o dest t _ d.fareBoard
      have hh : handover cw o dest t tx price d = StepRes.mk
          { (newFare cw o dest t d) with
            fareBoard := boardSet o dest t
              { origin := o, destination := dest, calltime := t, price := price,
                taxi := (listIndexOf tx (newFare cw o dest t d).taxis : Int), bidders := [] }
              (newFare cw o dest t d).fareBoard } [] true := by
        unfold handover
        rw [if_pos hc, if_pos hm]
        simp only [hbg]
      constructor
      · rw [hh]
        show (newFare cw o dest t d).fareAmountConstraint = d.fareAmountConstraint
        unfold newFare
        rw [if_pos hc]
      · intro _
        rw [hh]
        refine ⟨_, boardGetB_boardSet_self o dest t _ _, ?_⟩
        exact Int.natCast_nonneg _
    · have hbg : boardGet (newFare cw o dest t { d with taxis := d.taxis ++ [tx] })
          o dest t = some ⟨o, dest, t, 0, -1, []⟩ := by
        have hstep : newFare cw o dest t { d with taxis := d.taxis ++ [tx] } =
            { d with
              taxis := d.taxis ++ [tx]
              fareBoard := boardSet o dest t ⟨o, dest, t, 0, -1, []⟩ d.fareBoard } := by
          unfold newFare
          rw [if_pos hc]
        rw [hstep]
        exact boardGetB_boardSet_self o dest t _ d.fareBoard
      have hh : handover cw o dest t tx price d = StepRes.mk
          { (newFare cw o dest t { d with taxis := d.taxis ++ [tx] }) with
            fareBoard := boardSet o dest t
              { origin := o, destination := dest, calltime := t, price := price,
                taxi := (listIndexOf tx
                  (newFare cw o dest t { d with taxis := d.taxis ++ [tx] }).taxis : Int),
                bidders := [] }
              (newFare cw o dest t { d with taxis := d.taxis ++ [tx] }).fareBoard }
          [] true := by
        unfold handover
        rw [if_pos hc, if_neg hm]
        simp only [hbg]
      constructor
      · rw [hh]
        show (newFare cw o dest t
          { d with taxis := d.taxis ++ [tx] }).fareAmountConstraint = d.fareAmountConstraint
        unfold newFare
        rw [if_pos hc]
      · intro _
        rw [hh]
        refine ⟨_, boardGetB_boardSet_self o dest t _ _, ?_⟩
        exact Int.natCast_nonneg _
  · constructor
    · rw [show handover cw o dest t tx price d = ⟨d, [], true⟩ from by
        unfold handover
        rw [if_neg hc]]
    · intro h
      exact absurd h hc

/-- Witness for C10: handing a fare to a brand-new taxi leaves the (empty)
ledger empty and assigns the fare to its index. -/
theorem C10_handover_preserves_ledger_witness :
    (handover 0 (0, 0) (1, 1) 8 (mkTaxi 5 (11, 0)) 33 DCB).state.fareAmountConstraint =
      DCB.fareAmountConstraint ∧
    ((0 : Nat) = DCB.parent →
      ∃ e, boardGet (handover 0 (0, 0) (1, 1) 8 (mkTaxi 5 (11, 0)) 33 DCB).state
        (0, 0) (1, 1) 8 = some e ∧ 0 ≤ e.taxi) :=
  C10_handover_preserves_ledger 0 (0, 0) (1, 1) 8 (mkTaxi 5 (11, 0)) 33 DCB

/-! ## C3: first-timers outrank veterans -/

/-- When the allocation's preconditions hold and the winner selection picks
`k`, `_allocateFare` completes, writes `k` into the entry's taxi field, and
notifies the environment for taxi `tx`. -/
theorem allocateFare_success (w : World) (o dest : Coord) (t : Int) (d : Dispatcher)
    {e : FareEntry} {fn : Nat} {ini con : List (Nat × ℚ)} {k : Nat} {tx : Taxi}
    (he : boardGet d o dest t = some e)
    (htx : 0 < d.taxis.length) (hfb : 0 < d.fareBoard.length)
    (hfn : w.getNode o = some fn)
    (hg : guardLoop w d.taxis o dest e.bidders (some fn) = some (some fn))
    (hb : 1 < e.bidders.length)
    (hbd : buildDicts w d.taxis d.fareAmountConstraint (some fn) e.bidders [] [] =
      some (ini, con))
    (hcw : chooseWinner w d.taxis d.fareAmountConstraint (some fn) ini con = some k)
    (hget : d.taxis.get? k = some tx) :
    (allocateFare w o dest t d).ok = true ∧
    (allocateFare w o dest t d).state.fareBoard =
      boardSet o dest t { e with taxi := (k : Int) } d.fareBoard ∧
    (allocateFare w o dest t d).out = [OutCall.allocate o tx] := by
  unfold allocateFare
  simp only [he, if_pos (And.intro htx hfb), hfn, hg, if_pos hb, hbd, hcw, hget]
  simp

/-- C3: in every multi-bidder allocation that completes (the fare node
resolves, the stuck-agent guard passes unchanged, and every bidder's taxi and
node resolve), if at least one bidder is a first-timer (absent from the
fairness ledger) and at least one is a veteran (present in it), the winner is
a first-timer whose estimated travel time to the origin is minimal among the
first-timer bidders — regardless of how much closer any veteran is. -/
theorem C3_first_timer_wins (w : World) (d : Dispatcher) (o dest : Coord) (t : Int)
    (e : FareEntry) (fn : Nat)
    (he : boardGet d o dest t = some e)
    (hb : 1 < e.bidders.length)
    (hfn : w.getNode o = some fn)
    (hg : guardLoop w d.taxis o dest e.bidders (some fn) = some (some fn))
    (hbt : ∀ b ∈ e.bidders, (bidderTime w d.taxis (some fn) b).isSome)
    (hft : ∃ b ∈ e.bidders, dictMem b d.fareAmountConstraint = false)
    (_hvet : ∃ b ∈ e.bidders, dictMem b d.fareAmountConstraint = true) :
    ∃ k : Nat, (allocateFare w o dest t d).ok = true ∧
      boardGet (allocateFare w o dest t d).state o dest t =
        some { e with taxi := (k : Int) } ∧
      k ∈ e.bidders ∧ dictMem k d.fareAmountConstraint = false ∧
      ∃ tk, bidderTime w d.taxis (some fn) k = some tk ∧
        ∀ j ∈ e.bidders, dictMem j d.fareAmountConstraint = false →
          ∃ tj, bidderTime w d.taxis (some fn) j = some tj ∧ tk ≤ tj := by
  obtain ⟨b0, hb0m, hb0f⟩ := hft
  obtain ⟨tb0, htb0⟩ := Option.isSome_iff_exists.mp (hbt b0 hb0m)
  obtain ⟨tx0, htx0⟩ := taxisGet_of_bidderTime htb0
  obtain ⟨hb0lt, -⟩ := List.get?_eq_some.mp htx0
  have htxlen : 0 < d.taxis.length := Nat.lt_of_le_of_lt (Nat.zero_le _) hb0lt
  have hfb : 0 < d.fareBoard.length :=
    List.length_pos.mpr (fareBoard_ne_nil_of_boardGet he)
  obtain ⟨ini, con, hbd⟩ :=
    buildDicts_total w d.taxis d.fareAmountConstraint (some fn) hbt [] []
  obtain ⟨hini, hcon, hmi, hmc, hbs⟩ := buildDicts_spec hbd
  have hinimem : dictMem b0 ini = true := (hbs b0 hb0m).1 hb0f
  have hinine : ini ≠ [] := by
    intro hnil
    rw [hnil] at hinimem
    simp [dictMem, dictGet] at hinimem
  have hcw0 : chooseWinner w d.taxis d.fareAmountConstraint (some fn) ini con =
      dictArgmin ini := by
    unfold chooseWinner
    rw [if_pos hinine]
  cases hia : dictArgmin ini with
  | none =>
    cases ini with
    | nil => exact absurd rfl hinine
    | cons p r => simp [dictArgmin] at hia
  | some k =>
    obtain ⟨v, hvmem, hvmin⟩ := dictArgmin_spec hia
    rcases hini (k, v) hvmem with hk0 | ⟨hkf, hkb, hktime⟩
    · simp at hk0
    obtain ⟨tx, hget⟩ := taxisGet_of_bidderTime hktime
    obtain ⟨hok, hboard, hout⟩ := allocateFare_success w o dest t d he htxlen hfb hfn hg hb
      hbd (hcw0.trans hia) hget
    refine ⟨k, hok, ?_, hkb, hkf, v, hktime, ?_⟩
    · rw [boardGet, hboard]
      exact boardGetB_boardSet_self o dest t _ d.fareBoard
    · intro j hj hjf
      have hjm : dictMem j ini = true := (hbs j hj).1 hjf
      obtain ⟨u, hu⟩ := Option.isSome_iff_exists.mp hjm
      have humem : (j, u) ∈ ini := dictGet_mem hu
      rcases hini (j, u) humem with h0 | ⟨-, -, hjt⟩
      · simp at h0
      exact ⟨u, hjt, hvmin (j, u) humem⟩

/-- A priced, unallocated fare with bidders 0 and 1. -/
def EB2 : FareEntry where
  origin := (0, 0)
  destination := (1, 1)
  calltime := 0
  price := 7
  taxi := -1
  bidders := [0, 1]

/-- C3 witness state: taxi 0 is a veteran (2 awards) and closer (time 5);
taxi 1 is a first-timer and farther (time 6). -/
def DC3 : Dispatcher where
  parent := 0
  revenue := 0
  taxis := [mkTaxi 0 (10, 0), mkTaxi 1 (11, 0)]
  fareBoard := [(((0 : Int), (0 : Int)), [(((1 : Int), (1 : Int)), [((0 : Int), EB2)])])]
  fareAmountConstraint := [(0, 2)]

/-- Witness for C3: the first-timer taxi 1 wins even though the veteran
taxi 0 is closer. -/
theorem C3_first_timer_wins_witness :
    ∃ k : Nat, (allocateFare WB (0, 0) (1, 1) 0 DC3).ok = true ∧
      boardGet (allocateFare WB (0, 0) (1, 1) 0 DC3).state (0, 0) (1, 1) 0 =
        some { EB2 with taxi := (k : Int) } ∧
      k ∈ EB2.bidders ∧ dictMem k DC3.fareAmountConstraint = false ∧
      ∃ tk, bidderTime WB DC3.taxis (some 0) k = some tk ∧
        ∀ j ∈ EB2.bidders, dictMem j DC3.fareAmountConstraint = false →
          ∃ tj, bidderTime WB DC3.taxis (some 0) j = some tj ∧ tk ≤ tj :=
  C3_first_timer_wins WB DC3 (0, 0) (1, 1) 0 EB2 0 (by decide) (by decide) (by decide)
    (by decide) (by decide) (by decide) (by decide)

/-! ## C4 (amended): tied veterans at the global minimum -/

/-- C4 as amended: for an allocation over two or more bidders that are all
veterans, if exactly two bidders share the minimal ledger count and that
shared count IS the global minimum over the whole ledger (this proviso is
forced by `C4_fallback_ignores_tied_pair`), the winner is the one of the two
with the smaller estimated travel time to the origin. -/
theorem C4_tied_veterans_at_global_min (w : World) (d : Dispatcher) (o dest : Coord)
    (t : Int) (e : FareEntry) (fn : Nat) (k1 k2 : Nat) (m : Nat) (t1 t2 : ℚ)
    (he : boardGet d o dest t = some e)
    (hb : 1 < e.bidders.length)
    (hfn : w.getNode o = some fn)
    (hg : guardLoop w d.taxis o dest e.bidders (some fn) = some (some fn))
    (hbt : ∀ b ∈ e.bidders, (bidderTime w d.taxis (some fn) b).isSome)
    (hled : (d.fareAmountConstraint.map Prod.fst).Nodup)
    (hvets : ∀ b ∈ e.bidders, dictMem b d.fareAmountConstraint = true)
    (hk1 : k1 ∈ e.bidders) (hk2 : k2 ∈ e.bidders) (hne : k1 ≠ k2)
    (hc1 : dictGet k1 d.fareAmountConstraint = some m)
    (hc2 : dictGet k2 d.fareAmountConstraint = some m)
    (hmin : minVals d.fareAmountConstraint = some m)
    (hothers : ∀ j ∈ e.bidders, j ≠ k1 → j ≠ k2 →
      ∀ c, dictGet j d.fareAmountConstraint = some c → m < c)
    (ht1 : bidderTime w d.taxis (some fn) k1 = some t1)
    (ht2 : bidderTime w d.taxis (some fn) k2 = some t2)
    (hlt : t1 < t2) :
    (allocateFare w o dest t d).ok = true ∧
    boardGet (allocateFare w o dest t d).state o dest t =
      some { e with taxi := (k1 : Int) } := by
  obtain ⟨tx1, hget1⟩ := taxisGet_of_bidderTime ht1
  obtain ⟨hk1lt, -⟩ := List.get?_eq_some.mp hget1
  have htxlen : 0 < d.taxis.length := Nat.lt_of_le_of_lt (Nat.zero_le _) hk1lt
  have hfb : 0 < d.fareBoard.length :=
    List.length_pos.mpr (fareBoard_ne_nil_of_boardGet he)
  obtain ⟨ini, con, hbd⟩ :=
    buildDicts_total w d.taxis d.fareAmountConstraint (some fn) hbt [] []
  obtain ⟨hini, hcon, -, -, hbs⟩ := buildDicts_spec hbd
  have hinil : ini = [] := by
    cases hini2 : ini with
    | nil => rfl
    | cons p r =>
      exfalso
      have hmem : p ∈ ini := hini2 ▸ List.mem_cons_self _ _
      rcases hini p hmem with h0 | ⟨hledf, hpb, -⟩
      · simp at h0
      · rw [hvets p.1 hpb] at hledf
        exact Bool.noConfusion hledf
  subst hinil
  have hconnd : (con.map Prod.fst).Nodup := buildDicts_con_nodup hbd (by simp)
  have hiff : ∀ x, x ∈ filterMem (keysWithVal m d.fareAmountConstraint)
      (con.map Prod.fst) ↔ (x = k1 ∨ x = k2) := by
    intro x
    constructor
    · intro hx
      obtain ⟨hxc, hxl⟩ := mem_filterMem.mp hx
      obtain ⟨p, hpcon, hpx⟩ := List.mem_map.mp hxc
      have hxb : x ∈ e.bidders := by
        rcases hcon p hpcon with h0 | ⟨-, hpb, -⟩
        · simp at h0
        · exact hpx ▸ hpb
      have hxm : dictGet x d.fareAmountConstraint = some m :=
        dictGet_of_mem_nodup hled (mem_keysWithVal.mp hxl)
      by_contra hcon2
      push_neg at hcon2
      exact absurd (hothers x hxb hcon2.1 hcon2.2 m hxm) (lt_irrefl m)
    · intro hx
      rcases hx with rfl | rfl
      · refine mem_filterMem.mpr ⟨?_, ?_⟩
        · exact dictMem_iff_mem_keys.mp ((hbs x hk1).2 (by simp [dictMem, hc1]))
        · exact mem_keysWithVal.mpr (dictGet_mem hc1)
      · refine mem_filterMem.mpr ⟨?_, ?_⟩
        · exact dictMem_iff_mem_keys.mp ((hbs x hk2).2 (by simp [dictMem, hc2]))
        · exact mem_keysWithVal.mpr (dictGet_mem hc2)
  have hvalid := nodup_two_mem_eq hne (nodup_filterMem hconnd) hiff
  have hcw : chooseWinner w d.taxis d.fareAmountConstraint (some fn) [] con = some k1 := by
    unfold chooseWinner
    rw [if_neg (fun h => h rfl)]
    simp only [hmin]
    rcases hvalid with hv | hv
    · rw [hv]
      rw [if_pos (by simp : 1 < ([k1, k2] : List Nat).length)]
      simp only [buildTimes_pair hne ht1 ht2]
      exact dictArgmin_pair_left hlt
    · rw [hv]
      rw [if_pos (by simp : 1 < ([k2, k1] : List Nat).length)]
      simp only [buildTimes_pair (Ne.symm hne) ht2 ht1]
      exact dictArgmin_pair_right hlt
  obtain ⟨hok, hboard, -⟩ := allocateFare_success w o dest t d he htxlen hfb hfn hg hb
    hbd hcw hget1
  refine ⟨hok, ?_⟩
  rw [boardGet, hboard]
  exact boardGetB_boardSet_self o dest t _ d.fareBoard

/-- Witness for C4 (amended): veterans 0 and 1 share the globally minimal
count 2; veteran 2 (count 5) is closest but loses; 0 beats 1 on travel time
(5 < 6). -/
theorem C4_tied_veterans_at_global_min_witness :
    (allocateFare WB (0, 0) (1, 1) 0 DBw).ok = true ∧
    boardGet (allocateFare WB (0, 0) (1, 1) 0 DBw).state (0, 0) (1, 1) 0 =
      some { EB with taxi := (0 : Int) } :=
  C4_tied_veterans_at_global_min WB DBw (0, 0) (1, 1) 0 EB 0 0 1 2 5 6
    (by decide) (by decide) (by decide) (by decide) (by decide) (by decide) (by decide)
    (by decide) (by decide) (by decide) (by decide) (by decide) (by decide)
    (by
      intro j hj hj1 hj2 c hc
      fin_cases hj
      · exact absurd rfl hj1
      · exact absurd rfl hj2
      · have h5 : dictGet 2 DBw.fareAmountConstraint = some 5 := by decide
        rw [h5] at hc
        injection hc with hc5
        omega)
    (by decide) (by decide) (by decide)

/-! ## C6 (amended), C8 (amended), C9 (amended) -/

/-- C6 as amended: for a cancel event from the bound world, on a
well-formed registry (no empty buckets): if the key is present and the
notification index resolves (which requires a non-empty taxi list — the
proviso forced by `C6_cancel_raises_and_keeps_entry`), the entry is removed,
no empty bucket is left behind and the call completes; if the key is absent,
the call is an error-free no-op leaving the state unchanged. -/
theorem C6_cancel_removes_or_noop (cw : Nat) (o dest : Coord) (ct : Int) (d : Dispatcher)
    (hcw : cw = d.parent) (hwf : noEmptyBuckets d.fareBoard) :
    (∀ e, boardGet d o dest ct = some e → ∀ tx, pyIndex d.taxis e.taxi = some tx →
      ((cancelFare cw o dest ct d).ok = true ∧
        boardGet (cancelFare cw o dest ct d).state o dest ct = none ∧
        noEmptyBuckets (cancelFare cw o dest ct d).state.fareBoard)) ∧
    (boardGet d o dest ct = none → cancelFare cw o dest ct d = ⟨d, [], true⟩) := by
  obtain ⟨hwf1, hwf2⟩ := hwf
  constructor
  · intro e he tx htax
    cases hdm : dictGet o d.fareBoard with
    | none =>
      rw [boardGet, boardGetB, hdm] at he
      simp at he
    | some dm =>
      rw [boardGet, boardGetB, hdm] at he
      cases hdd : dictGet dest dm with
      | none =>
        simp only [bucketGet, hdd] at he
        exact Option.noConfusion he
      | some tm =>
        simp only [bucketGet, hdd] at he
        have hmem : (dictMem o d.fareBoard) = true := by simp [dictMem, hdm]
        have hmemd : (dictMem dest dm) = true := by simp [dictMem, hdd]
        have hdmmem : (o, dm) ∈ d.fareBoard := dictGet_mem hdm
        have hred : cancelFare cw o dest ct d = StepRes.mk
            { d with fareBoard :=
              (if (if dictDel ct tm = [] then dictDel dest dm else
                  dictSet dest (dictDel ct tm) dm) = []
                then dictDel o d.fareBoard
                else dictSet o (if dictDel ct tm = [] then dictDel dest dm else
                  dictSet dest (dictDel ct tm) dm) d.fareBoard) }
            [OutCall.cancel o tx] true := by
          unfold cancelFare
          rw [if_pos ⟨hcw, hmem⟩]
          simp only [hdm, Option.getD_some, hmemd, if_true, hdd, he, htax]
        rw [hred]
        refine ⟨rfl, ?_, ?_⟩
        · show boardGetB _ o dest ct = none
          by_cases h1 : dictDel ct tm = []
          · by_cases h2 : dictDel dest dm = []
            · rw [if_pos h1, if_pos h2]
              rw [boardGetB, dictGet_dictDel, if_pos rfl]
            · rw [if_pos h1, if_neg h2]
              rw [boardGetB, dictGet_dictSet, if_pos rfl]
              show bucketGet (dictDel dest dm) dest ct = none
              rw [bucketGet, dictGet_dictDel, if_pos rfl]
          · have h3 : dictSet dest (dictDel ct tm) dm ≠ [] := dictSet_ne_nil _ _ _
            rw [if_neg h1, if_neg h3]
            rw [boardGetB, dictGet_dictSet, if_pos rfl]
            show bucketGet (dictSet dest (dictDel ct tm) dm) dest ct = none
            rw [bucketGet, dictGet_dictSet, if_pos rfl]
            show dictGet ct (dictDel ct tm) = none
            rw [dictGet_dictDel, if_pos rfl]
        · show noEmptyBuckets _
          by_cases h1 : dictDel ct tm = []
          · by_cases h2 : dictDel dest dm = []
            · rw [if_pos h1, if_pos h2]
              exact ⟨fun p hp => hwf1 p (mem_dictDel hp),
                fun p hp q hq => hwf2 p (mem_dictDel hp) q hq⟩
            · rw [if_pos h1, if_neg h2]
              constructor
              · intro p hp
                rcases mem_dictSet hp with hpe | hpe
                · rw [hpe]
                  exact h2
                · exact hwf1 p hpe
              · intro p hp q hq
                rcases mem_dictSet hp with hpe | hpe
                · rw [hpe] at hq
                  exact hwf2 (o, dm) hdmmem q (mem_dictDel hq)
                · exact hwf2 p hpe q hq
          · have h3 : dictSet dest (dictDel ct tm) dm ≠ [] := dictSet_ne_nil _ _ _
            rw [if_neg h1, if_neg h3]
            constructor
            · intro p hp
              rcases mem_dictSet hp with hpe | hpe
              · rw [hpe]
                exact h3
              · exact hwf1 p hpe
            · intro p hp q hq
              rcases mem_dictSet hp with hpe | hpe
              · rw [hpe] at hq
                rcases mem_dictSet hq with hqe | hqe
                · rw [hqe]
                  exact h1
                · exact hwf2 (o, dm) hdmmem q hqe
              · exact hwf2 p hpe q hq
  · intro hnone
    cases hdm : dictGet o d.fareBoard with
    | none =>
      have hmem : (dictMem o d.fareBoard) = false := by simp [dictMem, hdm]
      unfold cancelFare
      rw [if_neg (fun h => by rw [hmem] at h; exact Bool.noConfusion h.2)]
    | some dm =>
      rw [boardGet, boardGetB, hdm] at hnone
      have hmem : (dictMem o d.fareBoard) = true := by simp [dictMem, hdm]
      cases hdd : dictGet dest dm with
      | none =>
        have hmemd : (dictMem dest dm) = false := by simp [dictMem, hdd]
        unfold cancelFare
        rw [if_pos ⟨hcw, hmem⟩]
        simp only [hdm, Option.getD_some, hmemd, Bool.false_eq_true, if_false]
      | some tm =>
        simp only [bucketGet, hdd] at hnone
        have hmemd : (dictMem dest dm) = true := by simp [dictMem, hdd]
        have hdmmem : (o, dm) ∈ d.fareBoard := dictGet_mem hdm
        have htmne : tm ≠ [] := hwf2 (o, dm) hdmmem (dest, tm) (dictGet_mem hdd)
        have hdmne : dm ≠ [] := hwf1 (o, dm) hdmmem
        unfold cancelFare
        rw [if_pos ⟨hcw, hmem⟩]
        simp only [hdm, Option.getD_some, hmemd, if_true, hdd, hnone]
        simp only [if_neg htmne, dictSet_get_self hdd, if_neg hdmne, dictSet_get_self hdm]

/-- An allocated fare, used by the C6 witness. -/
def ECw : FareEntry where
  origin := (0, 0)
  destination := (1, 1)
  calltime := 3
  price := 5
  taxi := 0
  bidders := [0]

/-- C6 witness state: one known taxi, one allocated fare. -/
def DC6w : Dispatcher where
  parent := 0
  revenue := 0
  taxis := [TC]
  fareBoard := [(((0 : Int), (0 : Int)), [(((1 : Int), (1 : Int)), [((3 : Int), ECw)])])]
  fareAmountConstraint := [(0, 1)]

/-- Witness for C6 (amended): cancelling the present key removes it and
prunes; cancelling an absent key is an error-free no-op. -/
theorem C6_cancel_removes_or_noop_witness :
    ((cancelFare 0 (0, 0) (1, 1) 3 DC6w).ok = true ∧
      boardGet (cancelFare 0 (0, 0) (1, 1) 3 DC6w).state (0, 0) (1, 1) 3 = none ∧
      noEmptyBuckets (cancelFare 0 (0, 0) (1, 1) 3 DC6w).state.fareBoard) ∧
    cancelFare 0 (2, 2) (1, 1) 9 DC6w = ⟨DC6w, [], true⟩ :=
  ⟨(C6_cancel_removes_or_noop 0 (0, 0) (1, 1) 3 DC6w rfl (by decide)).1 ECw (by decide)
      TC (by decide),
    (C6_cancel_removes_or_noop 0 (2, 2) (1, 1) 9 DC6w rfl (by decide)).2 (by decide)⟩

/-- C9 as amended: a bid by a known taxi at an origin with at least one open
fare is recorded on exactly one fare — the first unallocated fare of the
origin's bucket with destinations in dictionary (insertion) order and call
times in dictionary (insertion) order within each destination (NOT in
ascending sorted time order, per `C9_bid_ignores_sorted_order`) — and every
other fare entry is unchanged. -/
theorem C9_bid_first_open_insertion_order (o : Coord) (tx : Taxi) (d : Dispatcher)
    (dm : List (Coord × List (Int × FareEntry))) (dst : Coord) (t : Int) (e : FareEntry)
    (hmem : tx ∈ d.taxis) (hg : dictGet o d.fareBoard = some dm)
    (hnd : boardKeysNodup d.fareBoard)
    (hfo : firstOpenFare dm = some (dst, t, e)) :
    boardGet (fareBid o tx d) o dst t =
      some { e with bidders := e.bidders ++ [listIndexOf tx d.taxis] } ∧
    ∀ o' ds' t', (o', ds', t') ≠ (o, dst, t) →
      boardGet (fareBid o tx d) o' ds' t' = boardGet d o' ds' t' := by
  obtain ⟨hb, -, -⟩ := fareBid_eq_boardSet hmem hg hnd hfo
  constructor
  · rw [boardGet, hb]
    exact boardGetB_boardSet_self o dst t _ d.fareBoard
  · intro o' ds' t' hne
    rw [boardGet, hb, boardGetB_boardSet_ne _ _ _ _ _ _ _ _ hne]
    rfl

/-- Witness for C9 (amended): in the two-fare state the bid lands on the
insertion-order-first open fare (call time 5) and nothing else changes. -/
theorem C9_bid_first_open_insertion_order_witness :
    boardGet (fareBid (0, 0) TC DC9) (0, 0) (1, 1) 5 =
      some { (⟨(0, 0), (1, 1), 5, 0, -1, []⟩ : FareEntry) with
        bidders := ([] : List Nat) ++ [listIndexOf TC DC9.taxis] } ∧
    ∀ o' ds' t', (o', ds', t') ≠ ((0, 0), (1, 1), (5 : Int)) →
      boardGet (fareBid (0, 0) TC DC9) o' ds' t' = boardGet DC9 o' ds' t' :=
  C9_bid_first_open_insertion_order (0, 0) TC DC9
    [(((1 : Int), (1 : Int)), [((5 : Int), ⟨(0, 0), (1, 1), 5, 0, -1, []⟩),
      ((3 : Int), ⟨(0, 0), (1, 1), 3, 0, -1, []⟩)])]
    (1, 1) 5 ⟨(0, 0), (1, 1), 5, 0, -1, []⟩
    (by decide) (by decide) (by decide) (by decide)

/-- C8 as amended: a taxi can appear more than once in a fare's bidder list:
a second bid by the same known taxi on the same still-unallocated fare
appends the taxi's index again (the source has no membership check), so
after the bid the index occurs at least twice. -/
theorem C8_second_bid_appends_duplicate (o : Coord) (tx : Taxi) (d : Dispatcher)
    (dm : List (Coord × List (Int × FareEntry))) (dst : Coord) (t : Int) (e : FareEntry)
    (hmem : tx ∈ d.taxis) (hg : dictGet o d.fareBoard = some dm)
    (hnd : boardKeysNodup d.fareBoard)
    (hfo : firstOpenFare dm = some (dst, t, e))
    (hdup : listIndexOf tx d.taxis ∈ e.bidders) :
    ∃ e', boardGet (fareBid o tx d) o dst t = some e' ∧
      e'.bidders = e.bidders ++ [listIndexOf tx d.taxis] ∧
      e'.bidders ≠ e.bidders ∧
      2 ≤ e'.bidders.count (listIndexOf tx d.taxis) := by
  obtain ⟨hb, -, -⟩ := fareBid_eq_boardSet hmem hg hnd hfo
  refine ⟨{ e with bidders := e.bidders ++ [listIndexOf tx d.taxis] }, ?_, rfl, ?_, ?_⟩
  · rw [boardGet, hb]
    exact boardGetB_boardSet_self o dst t _ d.fareBoard
  · intro hcontra
    have := congrArg List.length hcontra
    simp at this
  · have h1 : 0 < e.bidders.count (listIndexOf tx d.taxis) :=
      List.count_pos_iff.mpr hdup
    have h2 : (e.bidders ++ [listIndexOf tx d.taxis]).count (listIndexOf tx d.taxis) =
        e.bidders.count (listIndexOf tx d.taxis) + 1 := by
      rw [List.count_append]
      simp
    rw [h2]
    omega

/-- A still-open fare already carrying a bid by taxi index 0. -/
def E8w : FareEntry where
  origin := (0, 0)
  destination := (1, 1)
  calltime := 4
  price := 7
  taxi := -1
  bidders := [0]

/-- C8 witness state: one known taxi whose index 0 is already on the open
fare's bidder list. -/
def D8w : Dispatcher where
  parent := 0
  revenue := 0
  taxis := [TC]
  fareBoard := [(((0 : Int), (0 : Int)), [(((1 : Int), (1 : Int)), [((4 : Int), E8w)])])]
  fareAmountConstraint := []

/-- Witness for C8 (amended): the repeat bid appends index 0 again. -/
theorem C8_second_bid_appends_duplicate_witness :
    ∃ e', boardGet (fareBid (0, 0) TC D8w) (0, 0) (1, 1) 4 = some e' ∧
      e'.bidders = E8w.bidders ++ [listIndexOf TC D8w.taxis] ∧
      e'.bidders ≠ E8w.bidders ∧
      2 ≤ e'.bidders.count (listIndexOf TC D8w.taxis) :=
  C8_second_bid_appends_duplicate (0, 0) TC D8w
    [(((1 : Int), (1 : Int)), [((4 : Int), E8w)])] (1, 1) 4 E8w
    (by decide) (by decide) (by decide) (by decide) (by decide)

end TaxiAI
